import Mathlib

/-!
Verification development for the wgconsole systemd service
(`usr/wgconsole/wgconsole.py`).

The Python source is shallowly embedded as executable Lean definitions:

* Python `dict` construction and lookup are modelled by `pydict` / `dget`
  (insertion order preserved, later bindings overwrite earlier ones).
* Python `int(...)` on decimal strings is modelled by `pyInt?` (ASCII
  fragment: surrounding whitespace, an optional sign, digits possibly
  separated by single underscores).
* `WgControl.run_command` is modelled by `run_command`, the external
  process being a function from the timeout ceiling passed to
  `subprocess.run` to an outcome.
* The database is modelled by `Store` (the two tables as lists of rows),
  reads as pure projections and writes as the `DbWrite` inductive applied
  by `applyWrite`.  `db_read` models the error handling of
  `WgControl.db_read` (a failing query yields an empty tuple).
* The external world (live interfaces as reported by `wg show`, the
  on-disk `.conf` files as the line list returned by `readlines`, and the
  `wg pubkey` derivation) is an `Env`; control actions (`Act`) change
  it through `applyAction`, which gives each issued command its
  documented effect.
* One full `WgControl.update` pass is `runPass`.  A `none` result models
  an uncaught Python exception escaping the pass (the source has two such
  slips: `pubkey.rstrip` on the `False` failure sentinel, and `dict(...)`
  on a config line containing two ` = ` separators).
* The regex pipeline of `WgControl.state_interface` is embedded by
  `findPeers` / `searchProps` / `propsKV` / `parseWgshow` over `List
  Char`, following the backtracking semantics of the three patterns.
-/

/-- Characters that Python's `str.strip` / the regex class `\s` treat as
whitespace (ASCII fragment). -/
def isSpaceChar (c : Char) : Bool :=
  c = ' ' || c = '\t' || c = '\n' || c = '\r' || c = '\x0b' || c = '\x0c'

/-- Characters matched by the regex class `\w` (ASCII fragment). -/
def wordChar (c : Char) : Bool :=
  c.isAlpha || c.isDigit || c = '_'

/-- Python dict insertion: overwrite the value of an existing key in place,
otherwise append the new binding. -/
def pyInsert {α β : Type} [DecidableEq α] (d : List (α × β)) (k : α) (v : β) :
    List (α × β) :=
  if d.any (fun p => p.1 = k) then
    d.map (fun p => if p.1 = k then (k, v) else p)
  else
    d ++ [(k, v)]

/-- Python dict built from a sequence of pairs: keys in first-occurrence
order, each key bound to its last value. -/
def pydict {α β : Type} [DecidableEq α] (l : List (α × β)) : List (α × β) :=
  l.foldl (fun d p => pyInsert d p.1 p.2) []

/-- Lookup in an association list whose keys are unique (a `pydict`
result); models Python dict indexing / `in`. -/
def dget {α β : Type} [DecidableEq α] (d : List (α × β)) (k : α) : Option β :=
  (d.find? (fun p => p.1 = k)).map (fun p => p.2)

/-- Value of the last binding of a key in a raw pair list. -/
def lastVal {α β : Type} [DecidableEq α] (l : List (α × β)) (k : α) : Option β :=
  ((l.filter (fun p => p.1 = k)).map (fun p => p.2)).getLast?

/-- Concatenation of the images of a list-valued function, in order. -/
def concatMap {α β : Type} (f : α → List β) : List α → List β
  | [] => []
  | x :: xs => f x ++ concatMap f xs

/-- Like `concatMap` but any `none` aborts the whole computation
(modelling an uncaught Python exception in the loop body). -/
def optConcatMap {α β : Type} (f : α → Option (List β)) : List α → Option (List β)
  | [] => some []
  | x :: xs =>
    match f x with
    | none => none
    | some l =>
      match optConcatMap f xs with
      | none => none
      | some r => some (l ++ r)

/-- Digit-group check for Python `int`: nonempty, starts and ends with a
digit, single underscores are only allowed between digits. -/
def digitsOk : List Char → Bool
  | [] => false
  | [c] => c.isDigit
  | c :: '_' :: rest => c.isDigit && digitsOk rest
  | c :: rest => c.isDigit && digitsOk rest

/-- Numeric value of a digit string, ignoring underscores. -/
def digitsVal (l : List Char) : Nat :=
  (l.filter (fun c => c.isDigit)).foldl (fun n c => 10 * n + (c.toNat - 48)) 0

/-- Python `int(s)` on a decimal string (ASCII fragment): strip
whitespace, optional sign, underscore-separated digit groups; `none`
models the `ValueError`. -/
def pyInt? (s : String) : Option Int :=
  let t := ((s.data.dropWhile isSpaceChar).reverse.dropWhile isSpaceChar).reverse
  match t with
  | '-' :: ds => if digitsOk ds then some (-(digitsVal ds : Int)) else none
  | '+' :: ds => if digitsOk ds then some (digitsVal ds : Int) else none
  | ds => if digitsOk ds then some (digitsVal ds : Int) else none

/-- Python `s.rstrip` with a newline argument: drop every trailing
newline character. -/
def rstripNl (s : String) : String :=
  String.mk ((s.data.reverse.dropWhile (fun c => c = '\n')).reverse)

/-- Python `s.removesuffix` with a newline argument: drop at most one
trailing newline character. -/
def stripNlOnce (s : String) : String :=
  match s.data.reverse with
  | '\n' :: rest => String.mk rest.reverse
  | _ => s

/-- Helper of `splitEq`: accumulate the current field until the literal
separator `" = "` is found. -/
def splitEqGo (acc : List Char) : List Char → List (List Char)
  | ' ' :: '=' :: ' ' :: rest => acc :: splitEqGo [] rest
  | c :: rest => splitEqGo (acc ++ [c]) rest
  | [] => [acc]

/-- Python `line.split(' = ')`: split on every non-overlapping occurrence
of the three-character separator, scanning left to right. -/
def splitEq (l : List Char) : List (List Char) :=
  splitEqGo [] l

/-- Whether the literal `" = "` occurs in the line (Python `' = ' in line`). -/
def hasEqSep (l : List Char) : Bool :=
  decide (2 ≤ (splitEq l).length)

/-- Model of the config-dict construction in `WgControl.conf_setup`:
`dict(line.removesuffix(newline).split(sep) for line in file.readlines()
if sep in line)`.  A line that splits into three or more fields makes the
`dict` constructor raise `ValueError`; this is modelled by `none`. -/
def confParse (lines : List String) : Option (List (String × String)) :=
  match optConcatMap
      (fun l : String =>
        let parts := splitEq (stripNlOnce l).data
        match parts with
        | [a, b] => some [(String.mk a, String.mk b)]
        | _ => none)
      (lines.filter (fun l => hasEqSep l.data)) with
  | none => none
  | some pairs => some (pydict pairs)

/-- Outcome of one `subprocess.run` invocation, as a function of the
timeout ceiling the caller passed: the process either completes with exit
code zero and some stdout, is missing, exits non-zero, or overruns the
ceiling. -/
inductive ProcOutcome : Type where
  | completed (stdout : String)
  | notFound
  | nonZeroExit (code : Int) (stderrText : String)
  | timedOut
deriving DecidableEq

/-- Value `WgControl.run_command` hands back to its callers: a nonempty
stdout string, or the Python `False` sentinel (used both for every
classified failure and for a successful run with empty stdout). -/
inductive RunResult : Type where
  | output (s : String)
  | falseSentinel
deriving DecidableEq

/-- `WgControl.run_command`: invoke the process with the fixed timeout
ceiling 5, return stdout when it is nonempty and the `False` sentinel in
every other case (empty stdout, missing executable, non-zero exit,
timeout). -/
def run_command (proc : Nat → ProcOutcome) : RunResult :=
  match proc 5 with
  | .completed out => if out ≠ "" then .output out else .falseSentinel
  | .notFound => .falseSentinel
  | .nonZeroExit _ _ => .falseSentinel
  | .timedOut => .falseSentinel

/-- Outcome of a database query as seen inside `WgControl.db_read`:
either a row sequence or a `psycopg2.ProgrammingError`. -/
inductive DbOutcome (α : Type) : Type where
  | ok (rows : List α)
  | progError
deriving DecidableEq

/-- `WgControl.db_read`: a failing query is logged and becomes the empty
tuple. -/
def db_read {α : Type} : DbOutcome α → List α
  | .ok rows => rows
  | .progError => []

/-- Row of the `wgconsole_interface` table. -/
structure InterfaceRow : Type where
  name : String
  status : Bool
  state : Bool
  address : String
  port : Int
  public_key : String
deriving DecidableEq

/-- Row of the `wgconsole_peer` table. -/
structure PeerRow : Type where
  public_key : String
  interface_id : String
  status : Bool
  allowed_ips : String
  state : String
deriving DecidableEq

/-- The two tables of the persistent store. -/
structure Store : Type where
  interfaces : List InterfaceRow
  peers : List PeerRow
deriving DecidableEq

/-- One live peer as recorded in the runtime snapshot: its public key and
the parsed property dict from the `wg show` dump. -/
structure PeerLive : Type where
  key : String
  props : List (String × String)
deriving DecidableEq

/-- The external world: `live` is the parsed `wg show` result per
interface (`none` when the command fails or prints nothing, i.e. the
interface is down), `conf` is the `readlines` content of the interface's
config file (`none` models `FileNotFoundError`), `pubkeyOf` is the
`wg pubkey` derivation (`none` models a failed invocation, for which
`run_command` returns the `False` sentinel). -/
structure Env : Type where
  live : String → Option (List PeerLive)
  conf : String → Option (List String)
  pubkeyOf : String → Option String

/-- The UPDATE statements the service issues, by target column. -/
inductive DbWrite : Type where
  | ifaceState (name : String) (state : Bool)
  | ifaceAddress (name : String) (address : String)
  | ifacePort (name : String) (port : String)
  | ifacePublicKey (name : String) (key : String)
  | peerState (key : String) (state : String)
deriving DecidableEq

/-- The external control commands the service issues. -/
inductive Act : Type where
  | wgQuickUp (name : String) (confPath : String)
  | wgQuickDown (name : String) (confPath : String)
  | peerAdd (name : String) (key : String) (ips : String)
  | routeAdd (ips : String) (name : String)
  | peerRemove (name : String) (key : String)
  | routeDel (ips : String) (name : String)
deriving DecidableEq

/-- Update every interface row with the given name. -/
def onIface (n : String) (f : InterfaceRow → InterfaceRow) (s : Store) : Store :=
  { s with interfaces := s.interfaces.map (fun r => if r.name = n then f r else r) }

/-- Update every peer row with the given public key. -/
def onPeer (k : String) (f : PeerRow → PeerRow) (s : Store) : Store :=
  { s with peers := s.peers.map (fun p => if p.public_key = k then f p else p) }

/-- Apply one UPDATE to the store.  The port column is an integer column,
so the raw string written by `conf_setup` is cast; the write is only ever
issued for strings `int` accepted. -/
def applyWrite (s : Store) : DbWrite → Store
  | .ifaceState n b => onIface n (fun r => { r with state := b }) s
  | .ifaceAddress n a => onIface n (fun r => { r with address := a }) s
  | .ifacePort n p => onIface n (fun r => { r with port := (pyInt? p).getD r.port }) s
  | .ifacePublicKey n k => onIface n (fun r => { r with public_key := k }) s
  | .peerState k st => onPeer k (fun p => { p with state := st }) s

/-- Apply a list of UPDATEs in order. -/
def applyWrites (s : Store) (ws : List DbWrite) : Store :=
  ws.foldl applyWrite s

/-- Observation of one interface in `WgControl.state_interface`: a truthy
`wg show` result means up with the parsed peer dict, a falsy one (failure
or empty output) means down with an empty peer dict. -/
structure IfObs : Type where
  state : Bool
  peers : List PeerLive
deriving DecidableEq

/-- The `wgstate` runtime snapshot: interface name to observation, in
table order. -/
abbrev WgSnap : Type := List (String × IfObs)

/-- Observe one interface. -/
def observe (env : Env) (n : String) : IfObs :=
  match env.live n with
  | some l => { state := true, peers := l }
  | none => { state := false, peers := [] }

/-- `WgControl.state_interface`: rebuild `wgstate` from the interface
table and write back every up/down state that differs from the cached
column value. -/
def state_interface (env : Env) (s : Store) : WgSnap × List DbWrite :=
  ( s.interfaces.map (fun r => (r.name, observe env r.name)),
    s.interfaces.filterMap (fun r =>
      if (observe env r.name).state ≠ r.state then
        some (.ifaceState r.name (observe env r.name).state)
      else none) )

/-- Lookup in the `wgstate` dict (`none` models the `KeyError`). -/
def wgLookup (w : WgSnap) (n : String) : Option IfObs :=
  (w.find? (fun p => p.1 = n)).map (fun p => p.2)

/-- Peer-state fingerprint of `WgControl.state_peer`: the property dict
joined as newline-separated `key: value` lines in insertion order. -/
def fingerprint (props : List (String × String)) : String :=
  String.intercalate "\n" (props.map (fun p => p.1 ++ ": " ++ p.2))

/-- All live peer keys known to the store, accumulated across the whole
snapshot (the `all_active_peers` union). -/
def allActive (w : WgSnap) (db : List (String × String)) : List String :=
  concatMap (fun ni : String × IfObs =>
    (ni.2.peers.map (fun pl => pl.key)).filter (fun k => (dget db k).isSome)) w

/-- `WgControl.state_peer`: per interface, write the fingerprint of every
live store-known peer on mismatch with the cached value; afterwards clear
(set to the empty string) every store peer outside the accumulated union
whose cached value is nonempty.  The source iterates the per-interface
active peers as a Python set; the model fixes dict insertion order, which
no theorem below depends on. -/
def state_peer (w : WgSnap) (s : Store) : List DbWrite :=
  let db := pydict (s.peers.map (fun p => (p.public_key, p.state)))
  let fpWrites := concatMap (fun ni : String × IfObs =>
    (ni.2.peers.filter (fun pl => (dget db pl.key).isSome)).filterMap (fun pl =>
      if some (fingerprint pl.props) ≠ dget db pl.key then
        some (.peerState pl.key (fingerprint pl.props))
      else none)) w
  let clears := db.filterMap (fun kv =>
    if kv.1 ∉ allActive w db ∧ kv.2 ≠ "" then some (.peerState kv.1 "") else none)
  fpWrites ++ clears

/-- Address and ListenPort handling of `WgControl.conf_setup` for one
interface row and its parsed config dict: the Address string is compared
verbatim and written on mismatch; the ListenPort string must be accepted
by `int` (a `ValueError` is caught and logged) and the raw string is
written when its integer value differs from the stored port. -/
def confFields (r : InterfaceRow) (conf : List (String × String)) : List DbWrite :=
  (match dget conf "Address" with
   | some a => if a ≠ r.address then [.ifaceAddress r.name a] else []
   | none => []) ++
  (match dget conf "ListenPort" with
   | some p =>
     match pyInt? p with
     | some v => if v ≠ r.port then [.ifacePort r.name p] else []
     | none => []
   | none => [])

/-- Loop body of `WgControl.conf_setup` over the interface rows.  The
Boolean is the crash flag: `true` models an uncaught exception
(`KeyError` on a missing snapshot entry, `ValueError` from `dict(...)` on
a malformed line, or `AttributeError` from `pubkey.rstrip` when
`wg pubkey` failed and `run_command` returned the `False` sentinel);
writes issued before the exception are kept, the loop stops. -/
def confSetupGo (env : Env) (w : WgSnap) : List InterfaceRow → List DbWrite × Bool
  | [] => ([], false)
  | r :: rest =>
    match wgLookup w r.name with
    | none => ([], true)
    | some obs =>
      if obs.state then confSetupGo env w rest
      else
        match env.conf r.name with
        | none => confSetupGo env w rest
        | some lines =>
          match confParse lines with
          | none => ([], true)
          | some conf =>
            let base := confFields r conf
            match dget conf "PrivateKey" with
            | none =>
              let rec2 := confSetupGo env w rest
              (base ++ rec2.1, rec2.2)
            | some priv =>
              match env.pubkeyOf priv with
              | none => (base, true)
              | some out =>
                let pk := rstripNl out
                let pkw :=
                  if pk ≠ r.public_key then [DbWrite.ifacePublicKey r.name pk] else []
                let rec2 := confSetupGo env w rest
                (base ++ pkw ++ rec2.1, rec2.2)

/-- `WgControl.conf_setup`: correct address, port and public key from the
on-disk config file for every interface whose snapshot state is down. -/
def conf_setup (env : Env) (w : WgSnap) (s : Store) : List DbWrite × Bool :=
  confSetupGo env w
    (s.interfaces.filter (fun r =>
      ((wgLookup w r.name).map (fun o => o.state)).getD true = false))

/-- Peer-loop body of `WgControl.update` for one peer row: a desired
peer absent from the working set is added together with its route, an
undesired present peer is removed together with its route, and a matched
key is removed from the working set. -/
def peerStep (n : String) (st : List String × List Act) (pr : PeerRow) :
    List String × List Act :=
  let acts1 :=
    if pr.public_key ∉ st.1 ∧ pr.status = true then
      st.2 ++ [.peerAdd n pr.public_key pr.allowed_ips, .routeAdd pr.allowed_ips n]
    else st.2
  let acts2 :=
    if pr.public_key ∈ st.1 ∧ pr.status = false then
      acts1 ++ [.peerRemove n pr.public_key, .routeDel pr.allowed_ips n]
    else acts1
  (if pr.public_key ∈ st.1 then st.1.erase pr.public_key else st.1, acts2)

/-- Orphan cleanup of `WgControl.update`: every key left in the working
set is removed, with a route delete taken from the snapshot's property
dict under the key `allowed ips` (`none` models the `KeyError` when the
property is absent). -/
def orphanActs (obs : IfObs) (n : String) (leftover : List String) :
    Option (List Act) :=
  optConcatMap (fun k =>
    match (obs.peers.find? (fun pl => pl.key = k)).bind
        (fun pl => dget pl.props "allowed ips") with
    | some ips => some [.peerRemove n k, .routeDel ips n]
    | none => none) leftover

/-- One interface of the reconciliation loop in `WgControl.update`:
up/down actions from the freshly read state and status columns, then, for
a desired-up interface, the peer diff against the snapshot's live peer
keys. -/
def reconIface (confDir : String) (w : WgSnap) (r : InterfaceRow)
    (peerRows : List PeerRow) : Option (List Act) :=
  let path := confDir ++ "/" ++ r.name ++ ".conf"
  let upDown : List Act :=
    (if r.state = false ∧ r.status = true then [.wgQuickUp r.name path] else []) ++
    (if r.state = true ∧ r.status = false then [.wgQuickDown r.name path] else [])
  if r.status = false then some upDown
  else
    match wgLookup w r.name with
    | none => none
    | some obs =>
      let st := peerRows.foldl (peerStep r.name) (obs.peers.map (fun pl => pl.key), [])
      match orphanActs obs r.name st.1 with
      | none => none
      | some oa => some (upDown ++ st.2 ++ oa)

/-- The reconciliation loop of `WgControl.update` over all interface
rows, each with its `WHERE interface_id` peer rows. -/
def reconcile (confDir : String) (w : WgSnap) (s : Store) : Option (List Act) :=
  optConcatMap (fun r =>
    reconIface confDir w r (s.peers.filter (fun p => p.interface_id = r.name)))
    s.interfaces

/-- Effect of one issued command on the external world, every command
succeeding with its documented meaning: `wg-quick up` brings the
interface up (with no peers, the config files of this model declaring
none), `wg-quick down` brings it down, `wg set ... allowed-ips` adds the
peer (or rebinds its allowed ips) on a live interface, `wg set ... remove`
deletes it, route changes are invisible to later observations. -/
def applyAction (env : Env) : Act → Env
  | .wgQuickUp n _ =>
    { env with live := fun m =>
        if m = n then some ((env.live n).getD []) else env.live m }
  | .wgQuickDown n _ =>
    { env with live := fun m => if m = n then none else env.live m }
  | .peerAdd n k ips =>
    { env with live := fun m =>
        if m = n then
          (env.live n).map (fun l =>
            if l.any (fun pl => pl.key = k) then
              l.map (fun pl =>
                if pl.key = k then
                  { pl with props := pyInsert pl.props "allowed ips" ips }
                else pl)
            else l ++ [{ key := k, props := [("allowed ips", ips)] }])
        else env.live m }
  | .peerRemove n k =>
    { env with live := fun m =>
        if m = n then (env.live n).map (fun l => l.filter (fun pl => pl.key ≠ k))
        else env.live m }
  | .routeAdd _ _ => env
  | .routeDel _ _ => env

/-- Result of one full `WgControl.update` pass. -/
structure PassOut : Type where
  store : Store
  env : Env
  writes : List DbWrite
  acts : List Act

/-- One full `WgControl.update` pass: observe and sync interface states,
sync peer states, correct config drift for down interfaces, reconcile
every interface, then observe and sync both again.  `none` models an
uncaught exception terminating the pass (and with it the service
process). -/
def runPass (confDir : String) (env : Env) (s : Store) : Option PassOut :=
  let si1 := state_interface env s
  let s1 := applyWrites s si1.2
  let w2 := state_peer si1.1 s1
  let s2 := applyWrites s1 w2
  let cs := conf_setup env si1.1 s2
  let s3 := applyWrites s2 cs.1
  if cs.2 then none
  else
    match reconcile confDir si1.1 s3 with
    | none => none
    | some acts =>
      let env1 := acts.foldl applyAction env
      let si2 := state_interface env1 s3
      let s4 := applyWrites s3 si2.2
      let w5 := state_peer si2.1 s4
      let s5 := applyWrites s4 w5
      some { store := s5, env := env1,
             writes := si1.2 ++ w2 ++ cs.1 ++ si2.2 ++ w5, acts := acts }

/-- Store writes and control actions of the second of two consecutive
passes with no external change in between: the first pass's output store
and output world are fed straight back in. -/
def secondPass (confDir : String) (env : Env) (s : Store) :
    Option (List DbWrite × List Act) :=
  match runPass confDir env s with
  | none => none
  | some out =>
    match runPass confDir out.env out.store with
    | none => none
    | some out2 => some (out2.writes, out2.acts)

/-- Whether the second list starts with the first (a literal pattern
match at the current scan position). -/
def lstarts : List Char → List Char → Bool
  | [], _ => true
  | _ :: _, [] => false
  | p :: ps, c :: cs => p = c && lstarts ps cs

/-- Scan loop of `re.findall` for the pattern capturing the rest of the
line after each literal `peer: ` (the capture `(.+)` needs at least one
character and stops at a newline); a successful match is consumed, a
failed position is advanced by one character.  The fuel argument only
drives termination; every step consumes at least one character, so
`findPeers` passes the input length. -/
def findPeersGo : Nat → List Char → List (List Char)
  | 0, _ => []
  | _, [] => []
  | fuel + 1, c :: rest =>
    if lstarts ("peer: ".data) (c :: rest) then
      let tail := (c :: rest).drop 6
      let cap := tail.takeWhile (fun ch => ch ≠ '\n')
      if cap = [] then findPeersGo fuel rest
      else cap :: findPeersGo fuel (tail.drop cap.length)
    else findPeersGo fuel rest

/-- All peer identifiers captured from a `wg show` dump. -/
def findPeers (s : List Char) : List (List Char) :=
  findPeersGo s.length s

/-- Continuation of the lazy `.+?` capture: after at least one character
has been taken, stop as soon as the literal `peer` follows. -/
def peerCutGo : List Char → List Char
  | [] => []
  | c :: rest => if lstarts ("peer".data) (c :: rest) then [] else c :: peerCutGo rest

/-- `re.search` of the block pattern: the first occurrence of the peer
identifier followed by at least one whitespace character, then the lazy
nonempty `props` capture up to the next literal `peer` or the end of the
text.  When the whitespace run reaches the end of the text the engine
backtracks the greedy `\s+` by one character so the capture can take the
final whitespace character.  `none` models a failed search, whose `None`
result the source immediately subscripts (`TypeError`). -/
def searchProps (peer : List Char) : List Char → Option (List Char)
  | [] => none
  | c :: rest =>
    if lstarts peer (c :: rest) then
      let t := (c :: rest).drop peer.length
      let wsp := t.takeWhile isSpaceChar
      let r := t.drop wsp.length
      if wsp = [] then searchProps peer rest
      else
        match r with
        | c2 :: r2 => some (c2 :: peerCutGo r2)
        | [] =>
          if 2 ≤ wsp.length then some [wsp.getLastD ' ']
          else searchProps peer rest
    else searchProps peer rest

/-- Accumulator loop of `termLines`. -/
def termLinesGo (acc : List Char) : List Char → List (List Char)
  | [] => []
  | c :: rest =>
    if c = '\n' then acc :: termLinesGo [] rest
    else termLinesGo (acc ++ [c]) rest

/-- The newline-terminated lines of a text, without their terminators; a
trailing fragment with no newline is dropped, exactly as the property
pattern (whose value capture requires a following newline) never matches
in it. -/
def termLines (s : List Char) : List (List Char) :=
  termLinesGo [] s

/-- Rightmost split of a line at a `': '` separator that leaves a
nonempty value: the greedy `(\w.+)` key capture backtracks only as far as
needed, so the rightmost feasible separator wins. -/
def splitAtLastKV : List Char → Option (List Char × List Char)
  | [] => none
  | c :: rest =>
    match splitAtLastKV rest with
    | some kv => some (c :: kv.1, kv.2)
    | none =>
      if c = ':' ∧ rest.head? = some ' ' ∧ 2 ≤ rest.length then
        some ([], rest.drop 1)
      else none

/-- Property-line match of `re.findall` on one newline-terminated line:
the key starts at the first word character, runs to the rightmost `': '`
separator that leaves a nonempty value, and must be at least two
characters long (`\w.+`); the value is the verbatim rest of the line. -/
def kvOfLine (l : List Char) : Option (List Char × List Char) :=
  match splitAtLastKV (l.dropWhile (fun c => !(wordChar c))) with
  | some kv => if 2 ≤ kv.1.length then some kv else none
  | none => none

/-- All `key: value` captures of one peer block's property text. -/
def propsKV (props : List Char) : List (List Char × List Char) :=
  (termLines props).filterMap kvOfLine

/-- The complete peer-parsing pipeline of `WgControl.state_interface` on
one `wg show` dump: find the peer identifiers, extract each block's
property text, capture its `key: value` lines into a dict, and collect
the per-peer dicts.  `none` models the uncaught `TypeError` when a block
search fails. -/
def parseWgshow (s : List Char) :
    Option (List (List Char × List (List Char × List Char))) :=
  match optConcatMap (fun peer =>
      match searchProps peer s with
      | none => none
      | some pr => some [(peer, pydict (propsKV pr))]) (findPeers s) with
  | none => none
  | some l => some (pydict l)

/-- An action immediately followed by another one wherever it occurs in
the issued sequence. -/
def followedBy (a b : Act) (l : List Act) : Prop :=
  ∀ pre post, l = pre ++ a :: post → post.head? = some b

/-- Actions a store peer row contributes inside the peer loop, given the
working set at the time the row is processed. -/
def matchActs (n : String) (lk : List String) (pr : PeerRow) : List Act :=
  (if pr.public_key ∉ lk ∧ pr.status = true then
    [.peerAdd n pr.public_key pr.allowed_ips, .routeAdd pr.allowed_ips n]
  else []) ++
  (if pr.public_key ∈ lk ∧ pr.status = false then
    [.peerRemove n pr.public_key, .routeDel pr.allowed_ips n]
  else [])

/-- Concrete store for the C5 crash scenario: two interfaces, both with
stale addresses. -/
def storeC5 : Store :=
  { interfaces :=
      [ { name := "wg0", status := true, state := false,
          address := "OLD0", port := 51820, public_key := "P0" },
        { name := "wg1", status := true, state := false,
          address := "OLD1", port := 51821, public_key := "P1" } ],
    peers := [] }

/-- Concrete snapshot for the C5 crash scenario: both interfaces down. -/
def snapC5 : WgSnap :=
  [ ("wg0", { state := false, peers := [] }),
    ("wg1", { state := false, peers := [] }) ]

/-- Concrete world for the C5 crash scenario: both config files present
with drifted addresses, the first one also carrying a private key, and
the `wg pubkey` invocation failing. -/
def envC5 : Env :=
  { live := fun _ => none,
    conf := fun n =>
      if n = "wg0" then some ["Address = 10.0.0.1/24\n", "PrivateKey = SECRET\n"]
      else if n = "wg1" then some ["Address = 10.0.2.1/24\n"]
      else none,
    pubkeyOf := fun _ => none }

/-- Concrete interface row for the C6 scenario. -/
def rowC6 : InterfaceRow :=
  { name := "wg0", status := true, state := false,
    address := "10.0.0.1/24", port := 51820, public_key := "P0" }

/-- Concrete parsed config dict for the C6 scenario: an Address value
that is not a network/CIDR literal and a ListenPort value outside
`[0, 65535]`. -/
def confC6 : List (String × String) :=
  [("Address", "not a CIDR at all"), ("ListenPort", "99999")]

/-- The store writes of one pass, when it completes. -/
def passWrites (confDir : String) (env : Env) (s : Store) : Option (List DbWrite) :=
  (runPass confDir env s).map (fun o => o.writes)

/-- The control actions of one pass, when it completes. -/
def passActs (confDir : String) (env : Env) (s : Store) : Option (List Act) :=
  (runPass confDir env s).map (fun o => o.acts)

/-- Concrete world for the C7 scenario: one down interface with a
drifted Address in its config file. -/
def envC7 : Env :=
  { live := fun _ => none,
    conf := fun n => if n = "wg0" then some ["Address = 10.9.9.9/24\n"] else none,
    pubkeyOf := fun _ => none }

/-- Concrete store for the C7 scenario. -/
def storeC7 : Store :=
  { interfaces :=
      [ { name := "wg0", status := false, state := false,
          address := "10.0.0.1/24", port := 51820, public_key := "P0" } ],
    peers := [] }

/-- Concrete observation for the C10 scenario: an up interface with two
live peers. -/
def obsC10 : IfObs :=
  { state := true,
    peers := [ { key := "PK1", props := [("allowed ips", "10.0.0.2/32")] },
               { key := "PK2", props := [("allowed ips", "10.0.0.3/32")] } ] }

/-- Concrete snapshot for the C10 scenario. -/
def wC10 : WgSnap := [("wg0", obsC10)]

/-- Concrete interface row for the C10 scenario: desired up and observed
up. -/
def rowC10 : InterfaceRow :=
  { name := "wg0", status := true, state := true,
    address := "10.0.0.1/24", port := 51820, public_key := "P0" }

/-- The two orphan-cleanup actions for one live peer. -/
def orphanF (n : String) (pl : PeerLive) : List Act :=
  [Act.peerRemove n pl.key,
   Act.routeDel ((dget pl.props "allowed ips").getD "") n]

/-- Concrete live peer P2 for the C1 scenario. -/
def plC1P2 : PeerLive := { key := "P2", props := [("allowed ips", "10.0.0.3/32")] }

/-- Concrete live peer P3 (orphan) for the C1 scenario. -/
def plC1P3 : PeerLive := { key := "P3", props := [("allowed ips", "10.0.0.4/32")] }

/-- Concrete observation for the C1 scenario: up with live peers P2, P3. -/
def obsC1 : IfObs := { state := true, peers := [plC1P2, plC1P3] }

/-- Concrete snapshot for the C1 scenario. -/
def wC1 : WgSnap := [("wg0", obsC1)]

/-- Concrete interface row for the C1 scenario: desired up, observed up. -/
def rowC1 : InterfaceRow :=
  { name := "wg0", status := true, state := true,
    address := "10.0.0.1/24", port := 51820, public_key := "P0" }

/-- Concrete peer row P1 (desired active, not live) for the C1 scenario. -/
def prC1a : PeerRow :=
  { public_key := "P1", interface_id := "wg0", status := true,
    allowed_ips := "10.0.0.2/32", state := "" }

/-- Concrete peer row P2 (desired inactive, live) for the C1 scenario. -/
def prC1b : PeerRow :=
  { public_key := "P2", interface_id := "wg0", status := false,
    allowed_ips := "10.0.0.3/32", state := "live" }

/-- Concrete peer table rows for the C1 scenario. -/
def rowsC1 : List PeerRow := [prC1a, prC1b]

/-- The action sequence the reconciler issues in the C1 scenario. -/
def actsC1 : List Act :=
  [Act.peerAdd "wg0" "P1" "10.0.0.2/32", Act.routeAdd "10.0.0.2/32" "wg0",
   Act.peerRemove "wg0" "P2", Act.routeDel "10.0.0.3/32" "wg0",
   Act.peerRemove "wg0" "P3", Act.routeDel "10.0.0.4/32" "wg0"]

/-- The peer dict `db_peers` read at the start of `WgControl.state_peer`. -/
def dbOf (s : Store) : List (String × String) :=
  pydict (s.peers.map (fun p => (p.public_key, p.state)))

/-- The fingerprint-phase writes of `WgControl.state_peer`. -/
def fpWrites (w : WgSnap) (db : List (String × String)) : List DbWrite :=
  concatMap (fun ni : String × IfObs =>
    (ni.2.peers.filter (fun pl => (dget db pl.key).isSome)).filterMap (fun pl =>
      if some (fingerprint pl.props) ≠ dget db pl.key then
        some (.peerState pl.key (fingerprint pl.props))
      else none)) w

/-- The clearing-phase writes of `WgControl.state_peer`. -/
def clearWrites (w : WgSnap) (db : List (String × String)) : List DbWrite :=
  db.filterMap (fun kv =>
    if kv.1 ∉ allActive w db ∧ kv.2 ≠ "" then some (.peerState kv.1 "") else none)

/-- Concrete snapshot for the C2 counterexample: one live peer with an
empty property dict. -/
def wC2 : WgSnap := [("wg0", { state := true, peers := [{ key := "PK", props := [] }] })]

/-- Concrete store for the C2 counterexample: that peer is store-known
with a nonempty cached state. -/
def sC2 : Store :=
  { interfaces := [],
    peers := [ { public_key := "PK", interface_id := "wg0", status := true,
                 allowed_ips := "10.0.0.2/32", state := "stale" } ] }

/-- Concrete snapshot for the C2 witness: peer A live with one property,
peer B not live anywhere. -/
def wW2 : WgSnap :=
  [("wg0", { state := true,
             peers := [{ key := "A", props := [("allowed ips", "10.0.0.2/32")] }] })]

/-- Concrete store for the C2 witness. -/
def sW2 : Store :=
  { interfaces := [],
    peers := [ { public_key := "A", interface_id := "wg0", status := true,
                 allowed_ips := "10.0.0.2/32", state := "" },
               { public_key := "B", interface_id := "wg0", status := true,
                 allowed_ips := "10.0.0.3/32", state := "old" } ] }

/-- A block text assembled from newline-terminated lines. -/
def joinNl (L : List (List Char)) : List Char :=
  concatMap (fun l => l ++ ['\n']) L

/-- Convergence of a store and world: every interface's cached state and
live up/down state agree with its desired status, every desired-up
interface's live peer set is exactly its desired-active rows, every peer
row's cached state is the fingerprint of its live properties (or empty
when not live anywhere), and every down interface's config-derived
fields already match the store; plus book-keeping: live key lists and
the peer table's key column are duplicate-free. -/
structure ConvergedHyp (env : Env) (s : Store) : Prop where
  state_sync : ∀ r ∈ s.interfaces, r.state = r.status
  live_sync : ∀ r ∈ s.interfaces, (env.live r.name).isSome = r.status
  peers_desired : ∀ r ∈ s.interfaces, r.status = true → ∀ p ∈ s.peers,
    p.interface_id = r.name →
    (p.status = true ↔
      p.public_key ∈ ((env.live r.name).getD []).map (fun pl => pl.key))
  live_rows : ∀ r ∈ s.interfaces, r.status = true →
    ∀ pl ∈ (env.live r.name).getD [], ∃ p ∈ s.peers,
      p.interface_id = r.name ∧ p.public_key = pl.key
  fp_sync : ∀ p ∈ s.peers, ∀ r ∈ s.interfaces,
    ∀ pl ∈ (env.live r.name).getD [], pl.key = p.public_key →
    p.state = fingerprint pl.props
  cleared : ∀ p ∈ s.peers,
    (∀ r ∈ s.interfaces,
      p.public_key ∉ ((env.live r.name).getD []).map (fun pl => pl.key)) →
    p.state = ""
  conf_sync : ∀ r ∈ s.interfaces, r.status = false →
    ∀ lines, env.conf r.name = some lines →
    ∃ conf, confParse lines = some conf
      ∧ (∀ a, dget conf "Address" = some a → a = r.address)
      ∧ (∀ ps v, dget conf "ListenPort" = some ps → pyInt? ps = some v →
          v = r.port)
      ∧ (∀ priv, dget conf "PrivateKey" = some priv →
          ∃ out, env.pubkeyOf priv = some out ∧ rstripNl out = r.public_key)
  live_nd : ∀ n l, env.live n = some l → (l.map (fun pl => pl.key)).Nodup
  peers_nd : (s.peers.map (fun p => p.public_key)).Nodup

/-- Concrete world for the C3 counterexample: interface up, desired
down, with a drifted Address in its config file. -/
def envC3 : Env :=
  { live := fun n => if n = "wg0" then some [] else none,
    conf := fun n =>
      if n = "wg0" then
        some ["Address = 10.9.9.9/24\n", "ListenPort = 51820\n",
              "PrivateKey = SEC\n"]
      else none,
    pubkeyOf := fun p => if p = "SEC" then some "PUB\n" else none }

/-- Concrete store for the C3 counterexample. -/
def storeC3 : Store :=
  { interfaces :=
      [ { name := "wg0", status := false, state := true,
          address := "10.0.0.1/24", port := 51820, public_key := "PUB" } ],
    peers := [] }

/-- Concrete world for the C3 witness: wg0 up with one live desired
peer, wg1 down with a config file matching the store. -/
def envW3 : Env :=
  { live := fun n =>
      if n = "wg0" then
        some [{ key := "A", props := [("allowed ips", "10.0.0.2/32")] }]
      else none,
    conf := fun n =>
      if n = "wg1" then
        some ["Address = 10.0.2.1/24\n", "ListenPort = 51821\n",
              "PrivateKey = SEC\n"]
      else none,
    pubkeyOf := fun p => if p = "SEC" then some "P1\n" else none }

/-- Concrete converged store for the C3 witness. -/
def storeW3 : Store :=
  { interfaces :=
      [ { name := "wg0", status := true, state := true,
          address := "10.0.0.1/24", port := 51820, public_key := "P0" },
        { name := "wg1", status := false, state := false,
          address := "10.0.2.1/24", port := 51821, public_key := "P1" } ],
    peers :=
      [ { public_key := "A", interface_id := "wg0", status := true,
          allowed_ips := "10.0.0.2/32",
          state := "allowed ips: 10.0.0.2/32" } ] }

/-! ### Theorems -/

/-- C8: `run_command` imposes the fixed wait ceiling 5 on every
invocation (its result depends only on the process behaviour at ceiling
5); a timed-out command yields the same `False` sentinel as the other
classified failures (missing executable, non-zero exit), so all
downstream logic treats them identically; a successful run with empty
stdout yields the sentinel, which is distinct from every
success-with-data result; and a successful run with nonempty stdout
returns that output. -/
theorem C8_run_command_contract :
    (∀ p q : Nat → ProcOutcome, p 5 = q 5 → run_command p = run_command q)
    ∧ (∀ p : Nat → ProcOutcome,
        (p 5 = .timedOut ∨ p 5 = .notFound ∨ ∃ c e, p 5 = .nonZeroExit c e) →
        run_command p = .falseSentinel)
    ∧ (∀ p : Nat → ProcOutcome, p 5 = .completed "" →
        run_command p = .falseSentinel ∧ ∀ s, run_command p ≠ .output s)
    ∧ (∀ (p : Nat → ProcOutcome) (out : String), p 5 = .completed out →
        out ≠ "" → run_command p = .output out) := by
  refine ⟨?_, ?_, ?_, ?_⟩
  · intro p q h
    unfold run_command
    rw [h]
  · intro p h
    unfold run_command
    rcases h with h | h | ⟨c, e, h⟩ <;> rw [h]
  · intro p h
    unfold run_command
    rw [h]
    exact ⟨by simp, by simp⟩
  · intro p out h hne
    unfold run_command
    rw [h]
    simp [hne]

/-- C8 witness: the contract evaluated at concrete process behaviours. -/
theorem C8_run_command_contract_witness :
    run_command (fun _ => .timedOut) = .falseSentinel
    ∧ run_command (fun _ => .notFound) = .falseSentinel
    ∧ run_command (fun _ => .nonZeroExit 1 "boom") = .falseSentinel
    ∧ run_command (fun _ => .completed "") = .falseSentinel
    ∧ run_command (fun _ => .completed "up\n") = .output "up\n" :=
  ⟨C8_run_command_contract.2.1 _ (Or.inl rfl),
   C8_run_command_contract.2.1 _ (Or.inr (Or.inl rfl)),
   C8_run_command_contract.2.1 _ (Or.inr (Or.inr ⟨1, "boom", rfl⟩)),
   (C8_run_command_contract.2.2.1 _ rfl).1,
   C8_run_command_contract.2.2.2 _ "up\n" rfl (by decide)⟩

/-- C4: the claim that no error ever terminates a pass is contradicted by
the config parser: a config line containing two ` = ` separators makes
the `dict(...)` constructor raise `ValueError`, which nothing catches, so
the pass (and the service process) dies.  The store gateway itself does
convert a failing read into an empty result, as the second conjunct
records. -/
theorem C4_malformed_conf_crashes_pass :
    confParse ["Address = 10.0.0.1/24 = stray\n"] = none
    ∧ db_read (DbOutcome.progError : DbOutcome PeerRow) = [] := by
  constructor
  · decide
  · rfl

/-- C5: when `wg pubkey` fails while handling `PrivateKey`,
`run_command` returns the `False` sentinel and `pubkey.rstrip` raises
`AttributeError`: the drift detector crashes (flag `true`) after issuing
the same interface's Address write, and the pending Address correction of
the next interface (`wg1`, whose file drifted to `10.0.2.1/24`) is never
issued — processing of subsequent interfaces does not complete. -/
theorem C5_pubkey_failure_aborts_conf_setup :
    conf_setup envC5 snapC5 storeC5 = ([.ifaceAddress "wg0" "10.0.0.1/24"], true)
    ∧ (∀ a, DbWrite.ifaceAddress "wg1" a ∉ (conf_setup envC5 snapC5 storeC5).1) := by
  constructor
  · decide
  · intro a hmem
    rw [show conf_setup envC5 snapC5 storeC5
        = ([.ifaceAddress "wg0" "10.0.0.1/24"], true) from by decide] at hmem
    simp at hmem

/-- C6 counterexample: the drift detector performs no validation at all —
an Address value that is no network/CIDR literal and a ListenPort value
far outside `[0, 65535]` are both written verbatim to the store, where
the claim requires a parse failure to leave the store unchanged and an
out-of-range port to be treated as an error. -/
theorem C6_counterexample_invalid_values_written :
    confFields rowC6 confC6
      = [.ifaceAddress "wg0" "not a CIDR at all", .ifacePort "wg0" "99999"] := by
  decide

/-- C6 amended: the Address value is never parsed — the raw string is
compared verbatim with the stored value and written exactly on mismatch;
the ListenPort value must be accepted by Python `int` (with no range
restriction), a rejected value producing no port write, and an accepted
one being written exactly when its integer value differs from the stored
port. -/
theorem C6_conf_field_handling (r : InterfaceRow) (conf : List (String × String)) :
    (∀ a, dget conf "Address" = some a →
      ((DbWrite.ifaceAddress r.name a ∈ confFields r conf) ↔ a ≠ r.address))
    ∧ (∀ p, dget conf "ListenPort" = some p → pyInt? p = none →
        ∀ q, DbWrite.ifacePort r.name q ∉ confFields r conf)
    ∧ (∀ p v, dget conf "ListenPort" = some p → pyInt? p = some v →
        ((DbWrite.ifacePort r.name p ∈ confFields r conf) ↔ v ≠ r.port)) := by
  refine ⟨?_, ?_, ?_⟩
  · intro a ha
    cases hlp : dget conf "ListenPort" with
    | none =>
      by_cases hne : a = r.address <;> simp [confFields, ha, hlp, hne]
    | some p =>
      cases hpi : pyInt? p with
      | none =>
        by_cases hne : a = r.address <;> simp [confFields, ha, hlp, hpi, hne]
      | some v =>
        by_cases hne : a = r.address <;> by_cases hv : v = r.port <;>
          simp [confFields, ha, hlp, hpi, hne, hv]
  · intro p hp hpn q
    cases hla : dget conf "Address" with
    | none => simp [confFields, hp, hpn, hla]
    | some a =>
      by_cases hne : a = r.address <;> simp [confFields, hp, hpn, hla, hne]
  · intro p v hp hv
    cases hla : dget conf "Address" with
    | none =>
      by_cases hpv : v = r.port <;> simp [confFields, hp, hv, hla, hpv]
    | some a =>
      by_cases hne : a = r.address <;> by_cases hpv : v = r.port <;>
        simp [confFields, hp, hv, hla, hne, hpv]

/-- C6 witness: the amended field handling instantiated at the concrete
drifted config of `confC6`. -/
theorem C6_conf_field_handling_witness :
    (DbWrite.ifaceAddress "wg0" "not a CIDR at all" ∈ confFields rowC6 confC6)
    ∧ (DbWrite.ifacePort "wg0" "99999" ∈ confFields rowC6 confC6) :=
  ⟨((C6_conf_field_handling rowC6 confC6).1 "not a CIDR at all" (by decide)).mpr
      (by decide),
   ((C6_conf_field_handling rowC6 confC6).2.2 "99999" 99999 (by decide)
      (by decide)).mpr (by decide)⟩

/-- Every write of `state_interface` is an interface-state write. -/
theorem state_interface_writes_shape (env : Env) (s : Store) :
    ∀ x ∈ (state_interface env s).2, ∃ m b, x = DbWrite.ifaceState m b := by
  intro x hx
  unfold state_interface at hx
  simp only [List.mem_filterMap] at hx
  obtain ⟨r, _, hr⟩ := hx
  split at hr
  · exact ⟨r.name, (observe env r.name).state, (Option.some.inj hr).symm⟩
  · cases hr

/-- Every write of `state_peer` is a peer-state write. -/
theorem state_peer_writes_shape (w : WgSnap) (s : Store) :
    ∀ x ∈ state_peer w s, ∃ k st, x = DbWrite.peerState k st := by
  intro x hx
  unfold state_peer at hx
  rcases List.mem_append.1 hx with h | h
  · clear hx
    induction w with
    | nil => cases h
    | cons ni rest ih =>
      rw [concatMap] at h
      rcases List.mem_append.1 h with h | h
      · simp only [List.mem_filterMap] at h
        obtain ⟨pl, _, hpl⟩ := h
        split at hpl
        · exact ⟨pl.key, _, (Option.some.inj hpl).symm⟩
        · cases hpl
      · exact ih h
  · simp only [List.mem_filterMap] at h
    obtain ⟨kv, _, hkv⟩ := h
    split at hkv
    · exact ⟨kv.1, "", (Option.some.inj hkv).symm⟩
    · cases hkv

/-- Every write of `confFields` targets the row's interface and is an
address or port write. -/
theorem mem_confFields {x : DbWrite} {r : InterfaceRow}
    {conf : List (String × String)} (h : x ∈ confFields r conf) :
    (∃ a, x = DbWrite.ifaceAddress r.name a)
    ∨ (∃ p, x = DbWrite.ifacePort r.name p) := by
  cases hla : dget conf "Address" with
  | none =>
    cases hlp : dget conf "ListenPort" with
    | none => simp [confFields, hla, hlp] at h
    | some p =>
      cases hpi : pyInt? p with
      | none => simp [confFields, hla, hlp, hpi] at h
      | some v =>
        by_cases hv : v = r.port <;> simp [confFields, hla, hlp, hpi, hv] at h
        exact Or.inr ⟨p, h⟩
  | some a =>
    cases hlp : dget conf "ListenPort" with
    | none =>
      by_cases hne : a = r.address <;> simp [confFields, hla, hlp, hne] at h
      exact Or.inl ⟨a, h⟩
    | some p =>
      cases hpi : pyInt? p with
      | none =>
        by_cases hne : a = r.address <;> simp [confFields, hla, hlp, hpi, hne] at h
        exact Or.inl ⟨a, h⟩
      | some v =>
        by_cases hne : a = r.address <;> by_cases hv : v = r.port <;>
          simp [confFields, hla, hlp, hpi, hne, hv] at h
        · exact Or.inr ⟨p, h⟩
        · exact Or.inl ⟨a, h⟩
        · rcases h with h | h
          · exact Or.inl ⟨a, h⟩
          · exact Or.inr ⟨p, h⟩

/-- Every write issued by the drift-detector loop targets the name of one
of the rows it was handed. -/
theorem confSetupGo_writes_name (env : Env) (w : WgSnap) :
    ∀ rows : List InterfaceRow, ∀ x ∈ (confSetupGo env w rows).1,
      ∃ r, r ∈ rows ∧
        ((∃ a, x = DbWrite.ifaceAddress r.name a)
        ∨ (∃ p, x = DbWrite.ifacePort r.name p)
        ∨ (∃ k, x = DbWrite.ifacePublicKey r.name k)) := by
  intro rows
  induction rows with
  | nil => intro x hx; cases hx
  | cons r rest ih =>
    intro x hx
    have tail : x ∈ (confSetupGo env w rest).1 →
        ∃ r', r' ∈ r :: rest ∧
          ((∃ a, x = DbWrite.ifaceAddress r'.name a)
          ∨ (∃ p, x = DbWrite.ifacePort r'.name p)
          ∨ (∃ k, x = DbWrite.ifacePublicKey r'.name k)) := by
      intro hmem
      obtain ⟨r', hr', hsh⟩ := ih x hmem
      exact ⟨r', List.mem_cons_of_mem r hr', hsh⟩
    have self : ((∃ a, x = DbWrite.ifaceAddress r.name a)
          ∨ (∃ p, x = DbWrite.ifacePort r.name p)
          ∨ (∃ k, x = DbWrite.ifacePublicKey r.name k)) →
        ∃ r', r' ∈ r :: rest ∧
          ((∃ a, x = DbWrite.ifaceAddress r'.name a)
          ∨ (∃ p, x = DbWrite.ifacePort r'.name p)
          ∨ (∃ k, x = DbWrite.ifacePublicKey r'.name k)) :=
      fun h => ⟨r, List.mem_cons_self r rest, h⟩
    rw [confSetupGo] at hx
    split at hx
    · exact absurd (show x ∈ ([] : List DbWrite) from hx) (List.not_mem_nil x)
    · rename_i obs heq1
      split at hx
      · exact tail hx
      · split at hx
        · exact tail hx
        · rename_i lines heq2
          split at hx
          · exact absurd (show x ∈ ([] : List DbWrite) from hx) (List.not_mem_nil x)
          · rename_i conf heq3
            split at hx
            · have hx' : x ∈ confFields r conf ++ (confSetupGo env w rest).1 := hx
              rcases List.mem_append.1 hx' with h | h
              · exact self ((mem_confFields h).elim
                  (fun q => Or.inl q) (fun q => Or.inr (Or.inl q)))
              · exact tail h
            · rename_i priv heq4
              split at hx
              · exact self ((mem_confFields
                  (show x ∈ confFields r conf from hx)).elim
                  (fun q => Or.inl q) (fun q => Or.inr (Or.inl q)))
              · rename_i out heq5
                have hx' : x ∈ (confFields r conf ++
                    (if rstripNl out ≠ r.public_key then
                      [DbWrite.ifacePublicKey r.name (rstripNl out)] else [])) ++
                    (confSetupGo env w rest).1 := hx
                rcases List.mem_append.1 hx' with h | h
                · rcases List.mem_append.1 h with h | h
                  · exact self ((mem_confFields h).elim
                      (fun q => Or.inl q) (fun q => Or.inr (Or.inl q)))
                  · by_cases hpk : rstripNl out = r.public_key
                    · rw [if_neg (by simp [hpk])] at h
                      cases h
                    · rw [if_pos (by simp [hpk])] at h
                      exact self (Or.inr (Or.inr
                        ⟨rstripNl out, List.mem_singleton.1 h⟩))
                · exact tail h

/-- A lookup in a name-to-observation map yields the observation of the
looked-up name. -/
theorem wgLookup_map_observe (env : Env) (rows : List InterfaceRow)
    (n : String) (obs : IfObs)
    (h : wgLookup (rows.map (fun r => (r.name, observe env r.name))) n = some obs) :
    obs = observe env n := by
  induction rows with
  | nil => cases h
  | cons r rest ih =>
    by_cases hn : r.name = n
    · unfold wgLookup at h
      rw [List.map_cons, List.find?_cons_of_pos _ (by simp [hn])] at h
      simp only [Option.map_some'] at h
      rw [← Option.some.inj h, ← hn]
    · unfold wgLookup at h ih
      rw [List.map_cons, List.find?_cons_of_neg _ (by simp [hn])] at h
      exact ih h

/-- A snapshot entry found under a name is the observation of that name. -/
theorem wgLookup_state_interface {env : Env} {s : Store} {n : String} {obs : IfObs}
    (h : wgLookup (state_interface env s).1 n = some obs) : obs = observe env n :=
  wgLookup_map_observe env s.interfaces n obs h

/-- A down observation means `wg show` failed or printed nothing. -/
theorem observe_state_false {env : Env} {n : String}
    (h : (observe env n).state = false) : env.live n = none := by
  unfold observe at h
  cases hl : env.live n
  · rfl
  · rw [hl] at h
    cases h

/-- Shape of every write of a completed pass: an interface-state write, a
peer-state write, or a drift-detector write for an interface whose
snapshot observation is down. -/
theorem runPass_write_shapes {c : String} {env : Env} {s : Store} {out : PassOut}
    (h : runPass c env s = some out) :
    ∀ x ∈ out.writes,
      (∃ m b, x = DbWrite.ifaceState m b)
      ∨ (∃ k st, x = DbWrite.peerState k st)
      ∨ (∃ (r : InterfaceRow) (obs : IfObs),
          wgLookup (state_interface env s).1 r.name = some obs
          ∧ obs.state = false
          ∧ ((∃ a, x = DbWrite.ifaceAddress r.name a)
            ∨ (∃ p, x = DbWrite.ifacePort r.name p)
            ∨ (∃ k, x = DbWrite.ifacePublicKey r.name k))) := by
  intro x hx
  unfold runPass at h
  dsimp only [] at h
  split at h
  · cases h
  · split at h
    · cases h
    · rename_i acts heq
      replace h := Option.some.inj h
      rw [← h] at hx
      have hx' : x ∈ (state_interface env s).2
          ++ state_peer (state_interface env s).1
              (applyWrites s (state_interface env s).2)
          ++ (conf_setup env (state_interface env s).1
              (applyWrites (applyWrites s (state_interface env s).2)
                (state_peer (state_interface env s).1
                  (applyWrites s (state_interface env s).2)))).1
          ++ (state_interface (acts.foldl applyAction env)
              (applyWrites (applyWrites (applyWrites s (state_interface env s).2)
                (state_peer (state_interface env s).1
                  (applyWrites s (state_interface env s).2)))
                (conf_setup env (state_interface env s).1
                  (applyWrites (applyWrites s (state_interface env s).2)
                    (state_peer (state_interface env s).1
                      (applyWrites s (state_interface env s).2)))).1)).2
          ++ state_peer (state_interface (acts.foldl applyAction env)
              (applyWrites (applyWrites (applyWrites s (state_interface env s).2)
                (state_peer (state_interface env s).1
                  (applyWrites s (state_interface env s).2)))
                (conf_setup env (state_interface env s).1
                  (applyWrites (applyWrites s (state_interface env s).2)
                    (state_peer (state_interface env s).1
                      (applyWrites s (state_interface env s).2)))).1)).1
              (applyWrites (applyWrites (applyWrites (applyWrites s
                (state_interface env s).2)
                (state_peer (state_interface env s).1
                  (applyWrites s (state_interface env s).2)))
                (conf_setup env (state_interface env s).1
                  (applyWrites (applyWrites s (state_interface env s).2)
                    (state_peer (state_interface env s).1
                      (applyWrites s (state_interface env s).2)))).1)
                (state_interface (acts.foldl applyAction env)
                  (applyWrites (applyWrites (applyWrites s
                    (state_interface env s).2)
                    (state_peer (state_interface env s).1
                      (applyWrites s (state_interface env s).2)))
                    (conf_setup env (state_interface env s).1
                      (applyWrites (applyWrites s (state_interface env s).2)
                        (state_peer (state_interface env s).1
                          (applyWrites s (state_interface env s).2)))).1)).2) := hx
      clear hx h
      rcases List.mem_append.1 hx' with hm | hm5
      · rcases List.mem_append.1 hm with hm' | hm4
        · rcases List.mem_append.1 hm' with hm'' | hm3
          · rcases List.mem_append.1 hm'' with hm1 | hm2
            · exact Or.inl (state_interface_writes_shape env s x hm1)
            · exact Or.inr (Or.inl (state_peer_writes_shape _ _ x hm2))
          · obtain ⟨r, hrmem, hsh⟩ := confSetupGo_writes_name env
              (state_interface env s).1 _ x hm3
            have hfil := (List.mem_filter.1 hrmem).2
            have hcond := of_decide_eq_true hfil
            cases hwl : wgLookup (state_interface env s).1 r.name with
            | none =>
              rw [hwl] at hcond
              cases hcond
            | some obs =>
              rw [hwl] at hcond
              exact Or.inr (Or.inr ⟨r, obs, hwl, hcond, hsh⟩)
        · exact Or.inl (state_interface_writes_shape _ _ x hm4)
      · exact Or.inr (Or.inl (state_peer_writes_shape _ _ x hm5))

/-- C7: in any completed pass, address, port and public-key store fields
are written only for interfaces whose runtime-snapshot state is down,
i.e. whose `wg show` observation at the start of the pass was falsy; an
interface observed up never receives such a write. -/
theorem C7_conf_fields_only_when_down (c : String) (env : Env) (s : Store)
    (ws : List DbWrite) (h : passWrites c env s = some ws) :
    ∀ n v, (DbWrite.ifaceAddress n v ∈ ws → env.live n = none)
      ∧ (DbWrite.ifacePort n v ∈ ws → env.live n = none)
      ∧ (DbWrite.ifacePublicKey n v ∈ ws → env.live n = none) := by
  obtain ⟨out, hout, hws⟩ := Option.map_eq_some'.1 h
  subst hws
  intro n v
  refine ⟨?_, ?_, ?_⟩ <;> intro hmem
  · rcases runPass_write_shapes hout _ hmem with ⟨m, b, hx⟩ | ⟨k, st, hx⟩ |
      ⟨r, obs, hwl, hst, hsh⟩
    · simp at hx
    · simp at hx
    · rcases hsh with ⟨a, ha⟩ | ⟨p, hp⟩ | ⟨k, hk⟩
      · simp only [DbWrite.ifaceAddress.injEq] at ha
        rw [ha.1]
        rw [wgLookup_state_interface hwl] at hst
        exact observe_state_false hst
      · simp at hp
      · simp at hk
  · rcases runPass_write_shapes hout _ hmem with ⟨m, b, hx⟩ | ⟨k, st, hx⟩ |
      ⟨r, obs, hwl, hst, hsh⟩
    · simp at hx
    · simp at hx
    · rcases hsh with ⟨a, ha⟩ | ⟨p, hp⟩ | ⟨k, hk⟩
      · simp at ha
      · simp only [DbWrite.ifacePort.injEq] at hp
        rw [hp.1]
        rw [wgLookup_state_interface hwl] at hst
        exact observe_state_false hst
      · simp at hk
  · rcases runPass_write_shapes hout _ hmem with ⟨m, b, hx⟩ | ⟨k, st, hx⟩ |
      ⟨r, obs, hwl, hst, hsh⟩
    · simp at hx
    · simp at hx
    · rcases hsh with ⟨a, ha⟩ | ⟨p, hp⟩ | ⟨k, hk⟩
      · simp at ha
      · simp at hp
      · simp only [DbWrite.ifacePublicKey.injEq] at hk
        rw [hk.1]
        rw [wgLookup_state_interface hwl] at hst
        exact observe_state_false hst

/-- C7 witness: a concrete pass whose only write is a drift correction
for the down interface `wg0`, which was indeed observed down. -/
theorem C7_conf_fields_only_when_down_witness :
    passWrites "/etc/wgconsole/conf.d" envC7 storeC7
      = some [DbWrite.ifaceAddress "wg0" "10.9.9.9/24"]
    ∧ envC7.live "wg0" = none :=
  ⟨by decide,
   ((C7_conf_fields_only_when_down "/etc/wgconsole/conf.d" envC7 storeC7
      [DbWrite.ifaceAddress "wg0" "10.9.9.9/24"] (by decide))
      "wg0" "10.9.9.9/24").1 (by decide)⟩

/-- In a peer list with distinct keys, searching for an element's key
finds that element. -/
theorem find?_key_self {l : List PeerLive} {pl : PeerLive}
    (hnd : (l.map (fun q => q.key)).Nodup) (hmem : pl ∈ l) :
    l.find? (fun q => q.key = pl.key) = some pl := by
  induction l with
  | nil => cases hmem
  | cons q rest ih =>
    rcases List.mem_cons.1 hmem with hq | hq
    · rw [hq]
      exact List.find?_cons_of_pos _ (by simp)
    · have hne : q.key ≠ pl.key := by
        intro he
        have : pl.key ∈ rest.map (fun q => q.key) :=
          List.mem_map.2 ⟨pl, hq, rfl⟩
        rw [← he] at this
        exact (List.nodup_cons.1 (by simpa using hnd)).1 this
      rw [List.find?_cons_of_neg _ (by simp [hne])]
      exact ih (List.nodup_cons.1 (by simpa using hnd)).2 hq

/-- Orphan cleanup over the full key list of a peer map with distinct
keys and present `allowed ips` properties: every live peer yields its
remove and route-delete pair, in order. -/
theorem orphanActs_on_keys (obs : IfObs) (n : String) (ps : List PeerLive)
    (hfind : ∀ pl ∈ ps, obs.peers.find? (fun q => q.key = pl.key) = some pl)
    (hips : ∀ pl ∈ ps, dget pl.props "allowed ips" ≠ none) :
    orphanActs obs n (ps.map (fun pl => pl.key))
      = some (concatMap (fun pl => [Act.peerRemove n pl.key,
          Act.routeDel ((dget pl.props "allowed ips").getD "") n]) ps) := by
  induction ps with
  | nil => rfl
  | cons pl rest ih =>
    unfold orphanActs at ih ⊢
    rw [List.map_cons]
    unfold optConcatMap
    rw [hfind pl (List.mem_cons_self pl rest)]
    cases hd : dget pl.props "allowed ips" with
    | none => exact absurd hd (hips pl (List.mem_cons_self pl rest))
    | some ips =>
      simp only [Option.some_bind]
      rw [ih (fun q hq => hfind q (List.mem_cons_of_mem pl hq))
        (fun q hq => hips q (List.mem_cons_of_mem pl hq))]
      simp [concatMap, hd]

/-- C10: reading the peer rows of a desired-up interface as an empty
sequence — which is also what a failed query produces, first conjunct —
makes the reconciler treat every live peer of that interface as an
orphan: each one gets exactly its peer-remove followed by a route delete
using the snapshot's `allowed ips` property. -/
theorem C10_empty_peer_read_orphans_all (confDir : String) (w : WgSnap)
    (r : InterfaceRow) (obs : IfObs)
    (hst : r.status = true)
    (hwl : wgLookup w r.name = some obs)
    (hips : ∀ pl ∈ obs.peers, dget pl.props "allowed ips" ≠ none)
    (hnd : (obs.peers.map (fun pl => pl.key)).Nodup) :
    db_read (DbOutcome.progError : DbOutcome PeerRow) = []
    ∧ reconIface confDir w r (db_read (DbOutcome.progError : DbOutcome PeerRow))
      = some ((if r.state = false then
            [Act.wgQuickUp r.name (confDir ++ "/" ++ r.name ++ ".conf")] else [])
          ++ concatMap (fun pl => [Act.peerRemove r.name pl.key,
              Act.routeDel ((dget pl.props "allowed ips").getD "") r.name])
              obs.peers) := by
  refine ⟨rfl, ?_⟩
  show reconIface confDir w r [] = _
  unfold reconIface
  rw [if_neg (by simp [hst])]
  split
  · rename_i heq
    rw [hwl] at heq
    cases heq
  · rename_i obs' heq
    rw [hwl] at heq
    replace heq := Option.some.inj heq
    subst heq
    simp only [List.foldl_nil]
    simp only [orphanActs_on_keys obs r.name obs.peers
      (fun pl hpl => find?_key_self hnd hpl) hips]
    simp [hst]

/-- C10 witness: two live peers and an empty peer read on a desired-up
interface produce exactly the two remove/route-delete pairs, using the
snapshot's allowed-ips values. -/
theorem C10_empty_peer_read_orphans_all_witness :
    reconIface "/etc/wgconsole/conf.d" wC10 rowC10 [] =
      some [Act.peerRemove "wg0" "PK1", Act.routeDel "10.0.0.2/32" "wg0",
            Act.peerRemove "wg0" "PK2", Act.routeDel "10.0.0.3/32" "wg0"] :=
  ((C10_empty_peer_read_orphans_all "/etc/wgconsole/conf.d" wC10 rowC10 obsC10
      rfl (by decide) (by decide) (by decide)).2).trans (by decide)

/-- `concatMap` distributes over append. -/
theorem concatMap_append {α β : Type} (f : α → List β) (l1 l2 : List α) :
    concatMap f (l1 ++ l2) = concatMap f l1 ++ concatMap f l2 := by
  induction l1 with
  | nil => rfl
  | cons x xs ih => simp [concatMap, ih]

/-- `concatMap` only depends on the function's values on the list. -/
theorem concatMap_congr {α β : Type} (f g : α → List β) (l : List α)
    (h : ∀ x ∈ l, f x = g x) : concatMap f l = concatMap g l := by
  induction l with
  | nil => rfl
  | cons x xs ih =>
    simp only [concatMap]
    rw [h x (List.mem_cons_self x xs), ih (fun y hy => h y (List.mem_cons_of_mem x hy))]

/-- Counting in a `concatMap` whose pieces never contain the element. -/
theorem count_concatMap_zero {α : Type} [DecidableEq α] {β : Type}
    {f : β → List α} {l : List β} {a : α}
    (h : ∀ x ∈ l, (f x).count a = 0) : (concatMap f l).count a = 0 := by
  induction l with
  | nil => rfl
  | cons x xs ih =>
    simp only [concatMap, List.count_append]
    rw [h x (List.mem_cons_self x xs), ih (fun y hy => h y (List.mem_cons_of_mem x hy))]

/-- Counting in a `concatMap` with exactly one contributing piece. -/
theorem count_concatMap_one {α : Type} [DecidableEq α] {β : Type}
    {f : β → List α} {l : List β} {x : β} {a : α}
    (hnd : l.Nodup) (hmem : x ∈ l) (hx : (f x).count a = 1)
    (hother : ∀ y ∈ l, y ≠ x → (f y).count a = 0) :
    (concatMap f l).count a = 1 := by
  induction l with
  | nil => cases hmem
  | cons z zs ih =>
    simp only [concatMap, List.count_append]
    by_cases hzx : z = x
    · have hnotin : x ∉ zs := by
        rw [hzx] at hnd
        exact (List.nodup_cons.1 hnd).1
      rw [hzx, hx, count_concatMap_zero (fun y hy =>
        hother y (List.mem_cons_of_mem z hy) (fun he => hnotin (he ▸ hy)))]
    · have hmem' : x ∈ zs := by
        rcases List.mem_cons.1 hmem with h | h
        · exact absurd h.symm hzx
        · exact h
      rw [hother z (List.mem_cons_self z zs) hzx,
        ih (List.nodup_cons.1 hnd).2 hmem'
          (fun y hy hne => hother y (List.mem_cons_of_mem z hy) hne)]

/-- In a list where an element occurs exactly as `X ++ a :: b :: Y` with
`a` nowhere else, every occurrence of `a` is followed by `b`. -/
theorem followedBy_unique {X Y : List Act} {a b : Act}
    (hX : a ∉ X) (hY : a ∉ Y) (hab : a ≠ b) :
    followedBy a b (X ++ a :: b :: Y) := by
  intro pre post heq
  induction X generalizing pre with
  | nil =>
    cases pre with
    | nil =>
      simp only [List.nil_append] at heq
      rw [← (List.cons.inj heq).2]
      rfl
    | cons c pre' =>
      simp only [List.nil_append, List.cons_append] at heq
      have htl := (List.cons.inj heq).2
      have : a ∈ b :: Y := by
        rw [htl]
        exact List.mem_append.2 (Or.inr (List.mem_cons_self a _))
      rcases List.mem_cons.1 this with h | h
      · exact absurd h hab
      · exact absurd h hY
  | cons c X' ih =>
    cases pre with
    | nil =>
      simp only [List.cons_append, List.nil_append] at heq
      have := (List.cons.inj heq).1
      exact absurd this.symm (fun he => hX (he ▸ List.mem_cons_self c X'))
    | cons c' pre' =>
      simp only [List.cons_append] at heq
      exact ih (fun hm => hX (List.mem_cons_of_mem c hm)) pre' (List.cons.inj heq).2

/-- Filtering a mapped list is mapping the comp-filtered list. -/
theorem map_filter_comm {α β : Type} (f : α → β) (p : β → Bool) (l : List α) :
    (l.map f).filter p = (l.filter (fun x => p (f x))).map f := by
  induction l with
  | nil => rfl
  | cons x xs ih =>
    simp only [List.map_cons, List.filter_cons]
    cases hp : p (f x) <;> simp [hp, ih]

/-- One step of the peer loop, in closed form. -/
theorem peerStep_eq (n : String) (lk : List String) (acc : List Act) (pr : PeerRow) :
    peerStep n (lk, acc) pr =
      ((if pr.public_key ∈ lk then lk.erase pr.public_key else lk),
       acc ++ matchActs n lk pr) := by
  by_cases hm : pr.public_key ∈ lk <;> cases hs : pr.status <;>
    simp [peerStep, matchActs, hm, hs]

/-- Actions of one peer row do not change when the working set is
replaced by one with the same membership for that row's key. -/
theorem matchActs_congr {n : String} {lk lk' : List String} {pr : PeerRow}
    (h : pr.public_key ∈ lk' ↔ pr.public_key ∈ lk) :
    matchActs n lk' pr = matchActs n lk pr := by
  simp only [matchActs, h]

/-- The peer loop in closed form: with distinct row keys and a distinct
working set, the final working set is the live keys matched by no row,
and the actions are the per-row actions judged against the initial
working set. -/
theorem peerFold_eq (n : String) (rows : List PeerRow) :
    ∀ (lk : List String) (acc : List Act),
    (rows.map (fun r => r.public_key)).Nodup → lk.Nodup →
    rows.foldl (peerStep n) (lk, acc)
      = (lk.filter (fun k => k ∉ rows.map (fun r => r.public_key)),
         acc ++ concatMap (matchActs n lk) rows) := by
  induction rows with
  | nil =>
    intro lk acc _ _
    simp [concatMap]
  | cons pr rest ih =>
    intro lk acc hndr hndl
    have hndr' : (rest.map (fun r => r.public_key)).Nodup :=
      (List.nodup_cons.1 (by simpa using hndr)).2
    have hkey : pr.public_key ∉ rest.map (fun r => r.public_key) :=
      (List.nodup_cons.1 (by simpa using hndr)).1
    rw [List.foldl_cons, peerStep_eq]
    by_cases hm : pr.public_key ∈ lk
    · rw [if_pos hm, ih (lk.erase pr.public_key) _ hndr' (hndl.erase _)]
      simp only [Prod.mk.injEq]
      constructor
      · rw [List.Nodup.erase_eq_filter hndl, List.filter_filter]
        apply List.filter_congr
        intro k hk
        by_cases hk1 : k = pr.public_key <;>
          by_cases hk2 : k ∈ rest.map (fun r => r.public_key) <;>
          simp [hk1, hk2]
      · rw [concatMap_congr (matchActs n (lk.erase pr.public_key)) (matchActs n lk)
          rest (fun q hq => matchActs_congr
          (List.mem_erase_of_ne (fun he => hkey (he ▸ List.mem_map.2 ⟨q, hq, rfl⟩))))]
        simp [concatMap, List.append_assoc]
    · rw [if_neg hm, ih lk _ hndr' hndl]
      simp only [Prod.mk.injEq]
      constructor
      · apply List.filter_congr
        intro k hk
        have hk1 : k ≠ pr.public_key := fun he => hm (he ▸ hk)
        by_cases hk2 : k ∈ rest.map (fun r => r.public_key) <;> simp [hk1, hk2]
      · simp [concatMap, List.append_assoc]

/-- How often one row's actions contain a given peer-add. -/
theorem count_matchActs_add (n : String) (lk : List String) (q : PeerRow)
    (k i : String) :
    (matchActs n lk q).count (Act.peerAdd n k i)
      = if q.public_key = k ∧ q.allowed_ips = i ∧ q.status = true
          ∧ q.public_key ∉ lk then 1 else 0 := by
  by_cases hk : q.public_key = k <;> by_cases hm : q.public_key ∈ lk <;>
    cases hs : q.status <;> by_cases hi : q.allowed_ips = i <;>
    simp_all [matchActs, List.count_cons, List.count_nil]

/-- How often one row's actions contain a given peer-remove. -/
theorem count_matchActs_remove (n : String) (lk : List String) (q : PeerRow)
    (k : String) :
    (matchActs n lk q).count (Act.peerRemove n k)
      = if q.public_key = k ∧ q.status = false ∧ q.public_key ∈ lk
        then 1 else 0 := by
  by_cases hk : q.public_key = k <;> by_cases hm : q.public_key ∈ lk <;>
    cases hs : q.status <;>
    simp_all [matchActs, List.count_cons, List.count_nil]

/-- Orphan cleanup for one peer contains its peer-remove exactly once. -/
theorem count_orphanF_remove (n : String) (pl : PeerLive) (k : String) :
    (orphanF n pl).count (Act.peerRemove n k) = if pl.key = k then 1 else 0 := by
  by_cases h : pl.key = k <;> simp [orphanF, h, List.count_cons, List.count_nil]

/-- Orphan cleanup contains no peer-add. -/
theorem count_orphanF_add (n : String) (pl : PeerLive) (k i : String) :
    (orphanF n pl).count (Act.peerAdd n k i) = 0 := by
  simp [orphanF]

/-- The reconciler's actions for one desired-up interface, in closed
form: the possible bring-up action, then each store row's add/remove pair
judged against the snapshot's live keys, then the orphan cleanups. -/
theorem reconIface_char (confDir : String) (w : WgSnap) (r : InterfaceRow)
    (rows : List PeerRow) (obs : IfObs)
    (hwl : wgLookup w r.name = some obs)
    (hst : r.status = true)
    (hndr : (rows.map (fun q => q.public_key)).Nodup)
    (hndl : (obs.peers.map (fun pl => pl.key)).Nodup)
    (hips : ∀ pl ∈ obs.peers, dget pl.props "allowed ips" ≠ none) :
    reconIface confDir w r rows =
      some ((if r.state = false then
          [Act.wgQuickUp r.name (confDir ++ "/" ++ r.name ++ ".conf")] else [])
        ++ concatMap (matchActs r.name (obs.peers.map (fun pl => pl.key))) rows
        ++ concatMap (orphanF r.name)
            (obs.peers.filter
              (fun pl => pl.key ∉ rows.map (fun q => q.public_key)))) := by
  unfold reconIface
  rw [if_neg (by simp [hst])]
  split
  · rename_i heq
    rw [hwl] at heq
    cases heq
  · rename_i obs' heq
    rw [hwl] at heq
    replace heq := Option.some.inj heq
    subst heq
    rw [peerFold_eq r.name rows (obs.peers.map (fun pl => pl.key)) [] hndr hndl]
    have hoa : orphanActs obs r.name
        ((obs.peers.map (fun pl => pl.key)).filter
          (fun k => k ∉ rows.map (fun q => q.public_key)))
        = some (concatMap (orphanF r.name)
            (obs.peers.filter
              (fun pl => pl.key ∉ rows.map (fun q => q.public_key)))) := by
      rw [map_filter_comm]
      exact orphanActs_on_keys obs r.name _
        (fun pl hpl => find?_key_self hndl (List.mem_of_mem_filter hpl))
        (fun pl hpl => hips pl (List.mem_of_mem_filter hpl))
    simp only [hoa]
    simp [hst]

/-- Row actions never contain an interface bring-up. -/
theorem count_matchActs_up (n : String) (lk : List String) (q : PeerRow)
    (x y : String) : (matchActs n lk q).count (Act.wgQuickUp x y) = 0 := by
  by_cases hm : q.public_key ∈ lk <;> cases hs : q.status <;>
    simp [matchActs, hm, hs, List.count_cons, List.count_nil]

/-- Row actions never contain an interface bring-down. -/
theorem count_matchActs_down (n : String) (lk : List String) (q : PeerRow)
    (x y : String) : (matchActs n lk q).count (Act.wgQuickDown x y) = 0 := by
  by_cases hm : q.public_key ∈ lk <;> cases hs : q.status <;>
    simp [matchActs, hm, hs, List.count_cons, List.count_nil]

/-- Orphan cleanup never contains an interface bring-up. -/
theorem count_orphanF_up (n : String) (pl : PeerLive) (x y : String) :
    (orphanF n pl).count (Act.wgQuickUp x y) = 0 := by
  simp [orphanF, List.count_cons, List.count_nil]

/-- Orphan cleanup never contains an interface bring-down. -/
theorem count_orphanF_down (n : String) (pl : PeerLive) (x y : String) :
    (orphanF n pl).count (Act.wgQuickDown x y) = 0 := by
  simp [orphanF, List.count_cons, List.count_nil]

/-- Membership in a `concatMap`. -/
theorem mem_concatMap {α β : Type} {f : α → List β} {l : List α} {a : β} :
    a ∈ concatMap f l ↔ ∃ x ∈ l, a ∈ f x := by
  induction l with
  | nil => simp [concatMap]
  | cons x xs ih => simp [concatMap, ih]

/-- A peer-add for a foreign key never appears in a row's actions. -/
theorem peerAdd_notmem_matchActs {n : String} {lk : List String} {q : PeerRow}
    {k i : String} (hne : q.public_key ≠ k) :
    Act.peerAdd n k i ∉ matchActs n lk q := by
  by_cases hm : q.public_key ∈ lk <;> cases hs : q.status <;>
    simp [matchActs, hm, hs, hne, Ne.symm hne]

/-- A peer-remove for a foreign key never appears in a row's actions. -/
theorem peerRemove_notmem_matchActs {n : String} {lk : List String} {q : PeerRow}
    {k : String} (hne : q.public_key ≠ k) :
    Act.peerRemove n k ∉ matchActs n lk q := by
  by_cases hm : q.public_key ∈ lk <;> cases hs : q.status <;>
    simp [matchActs, hm, hs, hne, Ne.symm hne]

/-- Orphan cleanup contains no peer-add. -/
theorem peerAdd_notmem_orphanF {n : String} {pl : PeerLive} {k i : String} :
    Act.peerAdd n k i ∉ orphanF n pl := by
  simp [orphanF]

/-- Orphan cleanup of one peer contains no foreign peer-remove. -/
theorem peerRemove_notmem_orphanF {n : String} {pl : PeerLive} {k : String}
    (hne : pl.key ≠ k) : Act.peerRemove n k ∉ orphanF n pl := by
  simp [orphanF, hne, Ne.symm hne]

/-- The mapped value of the middle element of a duplicate-free mapped
list appears in neither side. -/
theorem map_nodup_middle {α β : Type} (f : α → β) {l1 l2 : List α} {x : α}
    (h : ((l1 ++ x :: l2).map f).Nodup) : f x ∉ l1.map f ∧ f x ∉ l2.map f := by
  rw [List.map_append, List.map_cons, List.nodup_append] at h
  obtain ⟨h1, h2, hdisj⟩ := h
  exact ⟨fun hmem => hdisj hmem (List.mem_cons_self _ _),
    (List.nodup_cons.1 h2).1⟩

/-- Reassociation of the five action segments around a middle pair. -/
theorem assoc5 {α : Type} (U A seg B O : List α) :
    (U ++ (A ++ (seg ++ B))) ++ O = (U ++ A) ++ (seg ++ (B ++ O)) := by
  simp [List.append_assoc]

/-- C1: for one interface row of the reconciliation loop — exactly one
bring-up when observed down and desired up, exactly one bring-down when
observed up and desired down, no peer or route actions at all when the
desired status is down; otherwise every desired-active store peer absent
from the live set gets exactly one peer-add (with its allowed ips)
immediately followed by its route-add, every desired-inactive live store
peer gets exactly one peer-remove immediately followed by its
route-remove, and every live peer matched by no store row gets exactly
one peer-remove immediately followed by a route delete using the
snapshot's `allowed ips` property. -/
theorem C1_reconciler_actions (confDir : String) (w : WgSnap) (r : InterfaceRow)
    (rows : List PeerRow) (obs : IfObs) (acts : List Act)
    (hwl : wgLookup w r.name = some obs)
    (hndr : (rows.map (fun q => q.public_key)).Nodup)
    (hndl : (obs.peers.map (fun pl => pl.key)).Nodup)
    (hips : ∀ pl ∈ obs.peers, dget pl.props "allowed ips" ≠ none)
    (hrec : reconIface confDir w r rows = some acts) :
    (acts.count (Act.wgQuickUp r.name (confDir ++ "/" ++ r.name ++ ".conf"))
        = if r.state = false ∧ r.status = true then 1 else 0)
    ∧ (acts.count (Act.wgQuickDown r.name (confDir ++ "/" ++ r.name ++ ".conf"))
        = if r.state = true ∧ r.status = false then 1 else 0)
    ∧ (r.status = false → ∀ k i,
        Act.peerAdd r.name k i ∉ acts ∧ Act.peerRemove r.name k ∉ acts
        ∧ Act.routeAdd i r.name ∉ acts ∧ Act.routeDel i r.name ∉ acts)
    ∧ (∀ pr ∈ rows, pr.status = true →
        pr.public_key ∉ obs.peers.map (fun pl => pl.key) → r.status = true →
        acts.count (Act.peerAdd r.name pr.public_key pr.allowed_ips) = 1
        ∧ followedBy (Act.peerAdd r.name pr.public_key pr.allowed_ips)
            (Act.routeAdd pr.allowed_ips r.name) acts)
    ∧ (∀ pr ∈ rows, pr.status = false →
        pr.public_key ∈ obs.peers.map (fun pl => pl.key) → r.status = true →
        acts.count (Act.peerRemove r.name pr.public_key) = 1
        ∧ followedBy (Act.peerRemove r.name pr.public_key)
            (Act.routeDel pr.allowed_ips r.name) acts)
    ∧ (∀ pl ∈ obs.peers, pl.key ∉ rows.map (fun q => q.public_key) →
        r.status = true →
        acts.count (Act.peerRemove r.name pl.key) = 1
        ∧ followedBy (Act.peerRemove r.name pl.key)
            (Act.routeDel ((dget pl.props "allowed ips").getD "") r.name) acts) := by
  by_cases hst : r.status = true
  case neg =>
    have hstf : r.status = false := by simpa using hst
    unfold reconIface at hrec
    rw [if_pos hstf] at hrec
    replace hrec := Option.some.inj hrec
    subst hrec
    refine ⟨?_, ?_, ?_, ?_, ?_, ?_⟩
    · cases hstt : r.state <;>
        simp [hstf, hstt, List.count_append, List.count_cons, List.count_nil]
    · cases hstt : r.state <;>
        simp [hstf, hstt, List.count_append, List.count_cons, List.count_nil]
    · intro _ k i
      cases hstt : r.state <;> simp [hstf, hstt]
    · intro pr _ _ _ hsttrue
      rw [hstf] at hsttrue
      cases hsttrue
    · intro pr _ _ _ hsttrue
      rw [hstf] at hsttrue
      cases hsttrue
    · intro pl _ _ hsttrue
      rw [hstf] at hsttrue
      cases hsttrue
  case pos =>
    rw [reconIface_char confDir w r rows obs hwl hst hndr hndl hips] at hrec
    replace hrec := Option.some.inj hrec
    subst hrec
    have hrowsnd : rows.Nodup := List.Nodup.of_map _ hndr
    have hkeyinj := List.inj_on_of_nodup_map hndr
    have hpeernd : obs.peers.Nodup := List.Nodup.of_map _ hndl
    have hpeerinj := List.inj_on_of_nodup_map hndl
    have hfilnd : (obs.peers.filter
        (fun pl => pl.key ∉ rows.map (fun q => q.public_key))).Nodup :=
      hpeernd.filter _
    refine ⟨?_, ?_, ?_, ?_, ?_, ?_⟩
    · simp only [List.count_append]
      rw [count_concatMap_zero (fun q _ => count_matchActs_up _ _ q _ _),
        count_concatMap_zero (fun pl _ => count_orphanF_up _ pl _ _)]
      cases hstt : r.state <;> simp [hst, hstt]
    · simp only [List.count_append]
      rw [count_concatMap_zero (fun q _ => count_matchActs_down _ _ q _ _),
        count_concatMap_zero (fun pl _ => count_orphanF_down _ pl _ _)]
      cases hstt : r.state <;> simp [hst, hstt]
    · intro hsf
      rw [hsf] at hst
      cases hst
    · intro pr hpr hprs hkey _
      constructor
      · simp only [List.count_append]
        rw [count_concatMap_one hrowsnd hpr
            (by rw [count_matchActs_add, if_pos ⟨rfl, rfl, hprs, hkey⟩])
            (fun q hq hne => by
              rw [count_matchActs_add,
                if_neg (fun hc => hne (hkeyinj hq hpr hc.1))]),
          count_concatMap_zero (fun pl _ => count_orphanF_add _ pl _ _)]
        cases hstt : r.state <;> simp [hstt, List.count_cons, List.count_nil]
      · obtain ⟨l1, l2, hrows⟩ := List.append_of_mem hpr
        subst hrows
        obtain ⟨hnl1, hnl2⟩ := map_nodup_middle
          (fun q : PeerRow => q.public_key) hndr
        have hfpr : matchActs r.name (obs.peers.map (fun pl => pl.key)) pr
            = [Act.peerAdd r.name pr.public_key pr.allowed_ips,
               Act.routeAdd pr.allowed_ips r.name] := by
          simp [matchActs, hkey, hprs]
        rw [concatMap_append]
        rw [show concatMap (matchActs r.name (obs.peers.map (fun pl => pl.key)))
            (pr :: l2)
            = matchActs r.name (obs.peers.map (fun pl => pl.key)) pr
              ++ concatMap (matchActs r.name (obs.peers.map (fun pl => pl.key))) l2
          from rfl]
        rw [assoc5, hfpr]
        simp only [List.cons_append, List.nil_append]
        apply followedBy_unique
        · intro hmem
          rcases List.mem_append.1 hmem with h | h
          · revert h
            cases hstt : r.state <;> simp [hstt]
          · obtain ⟨q, hq, hqa⟩ := mem_concatMap.1 h
            refine peerAdd_notmem_matchActs ?_ hqa
            intro he
            apply hnl1
            rw [← he]
            exact List.mem_map.2 ⟨q, hq, rfl⟩
        · intro hmem
          rcases List.mem_append.1 hmem with h | h
          · obtain ⟨q, hq, hqa⟩ := mem_concatMap.1 h
            refine peerAdd_notmem_matchActs ?_ hqa
            intro he
            apply hnl2
            rw [← he]
            exact List.mem_map.2 ⟨q, hq, rfl⟩
          · obtain ⟨pl, _, hpla⟩ := mem_concatMap.1 h
            exact peerAdd_notmem_orphanF hpla
        · simp
    · intro pr hpr hprs hkey _
      constructor
      · simp only [List.count_append]
        rw [count_concatMap_one hrowsnd hpr
            (by rw [count_matchActs_remove, if_pos ⟨rfl, hprs, hkey⟩])
            (fun q hq hne => by
              rw [count_matchActs_remove,
                if_neg (fun hc => hne (hkeyinj hq hpr hc.1))]),
          count_concatMap_zero (fun pl hpl => by
            rw [count_orphanF_remove,
              if_neg (fun hc => by
                have hnotin := of_decide_eq_true (List.mem_filter.1 hpl).2
                exact hnotin (hc ▸ List.mem_map.2 ⟨pr, hpr, rfl⟩))])]
        cases hstt : r.state <;> simp [hstt, List.count_cons, List.count_nil]
      · obtain ⟨l1, l2, hrows⟩ := List.append_of_mem hpr
        subst hrows
        obtain ⟨hnl1, hnl2⟩ := map_nodup_middle
          (fun q : PeerRow => q.public_key) hndr
        have hfpr : matchActs r.name (obs.peers.map (fun pl => pl.key)) pr
            = [Act.peerRemove r.name pr.public_key,
               Act.routeDel pr.allowed_ips r.name] := by
          simp [matchActs, hkey, hprs]
        rw [concatMap_append]
        rw [show concatMap (matchActs r.name (obs.peers.map (fun pl => pl.key)))
            (pr :: l2)
            = matchActs r.name (obs.peers.map (fun pl => pl.key)) pr
              ++ concatMap (matchActs r.name (obs.peers.map (fun pl => pl.key))) l2
          from rfl]
        rw [assoc5, hfpr]
        simp only [List.cons_append, List.nil_append]
        apply followedBy_unique
        · intro hmem
          rcases List.mem_append.1 hmem with h | h
          · revert h
            cases hstt : r.state <;> simp [hstt]
          · obtain ⟨q, hq, hqa⟩ := mem_concatMap.1 h
            refine peerRemove_notmem_matchActs ?_ hqa
            intro he
            apply hnl1
            rw [← he]
            exact List.mem_map.2 ⟨q, hq, rfl⟩
        · intro hmem
          rcases List.mem_append.1 hmem with h | h
          · obtain ⟨q, hq, hqa⟩ := mem_concatMap.1 h
            refine peerRemove_notmem_matchActs ?_ hqa
            intro he
            apply hnl2
            rw [← he]
            exact List.mem_map.2 ⟨q, hq, rfl⟩
          · obtain ⟨pl, hpl, hpla⟩ := mem_concatMap.1 h
            have hnotin := of_decide_eq_true (List.mem_filter.1 hpl).2
            refine peerRemove_notmem_orphanF ?_ hpla
            intro he
            apply hnotin
            rw [he]
            exact List.mem_map.2 ⟨pr, hpr, rfl⟩
        · simp
    · intro pl hpl hkey _
      have hfil : pl ∈ obs.peers.filter
          (fun q => q.key ∉ rows.map (fun q => q.public_key)) :=
        List.mem_filter.2 ⟨hpl, by simpa using hkey⟩
      constructor
      · simp only [List.count_append]
        rw [count_concatMap_zero (fun q hq => by
            rw [count_matchActs_remove,
              if_neg (by
                intro hc
                exact hkey (hc.1 ▸ List.mem_map.2 ⟨q, hq, rfl⟩))]),
          count_concatMap_one hfilnd hfil
            (by rw [count_orphanF_remove, if_pos rfl])
            (fun pl' hpl' hne => by
              rw [count_orphanF_remove,
                if_neg (fun hc => hne (hpeerinj (List.mem_of_mem_filter hpl')
                  hpl hc))])]
        cases hstt : r.state <;> simp [hstt, List.count_cons, List.count_nil]
      · obtain ⟨F1, F2, hfe⟩ := List.append_of_mem hfil
        have hmapnd : ((F1 ++ pl :: F2).map (fun q => q.key)).Nodup := by
          rw [← hfe]
          exact List.Nodup.sublist
            (List.Sublist.map _ (List.filter_sublist obs.peers)) hndl
        obtain ⟨hnf1, hnf2⟩ := map_nodup_middle
          (fun q : PeerLive => q.key) hmapnd
        rw [hfe, concatMap_append]
        rw [show concatMap (orphanF r.name) (pl :: F2)
            = orphanF r.name pl ++ concatMap (orphanF r.name) F2 from rfl]
        rw [← List.append_assoc]
        have hof : orphanF r.name pl
            = [Act.peerRemove r.name pl.key,
               Act.routeDel ((dget pl.props "allowed ips").getD "") r.name] := rfl
        rw [hof]
        simp only [List.cons_append, List.nil_append]
        apply followedBy_unique
        · intro hmem
          rcases List.mem_append.1 hmem with h | h
          · rcases List.mem_append.1 h with h' | h'
            · revert h'
              cases hstt : r.state <;> simp [hstt]
            · obtain ⟨q, hq, hqa⟩ := mem_concatMap.1 h'
              refine peerRemove_notmem_matchActs ?_ hqa
              intro he
              apply hkey
              rw [← he]
              exact List.mem_map.2 ⟨q, hq, rfl⟩
          · obtain ⟨pl', hpl', hpla⟩ := mem_concatMap.1 h
            refine peerRemove_notmem_orphanF ?_ hpla
            intro he
            apply hnf1
            rw [← he]
            exact List.mem_map.2 ⟨pl', hpl', rfl⟩
        · intro hmem
          obtain ⟨pl', hpl', hpla⟩ := mem_concatMap.1 hmem
          refine peerRemove_notmem_orphanF ?_ hpla
          intro he
          apply hnf2
          rw [← he]
          exact List.mem_map.2 ⟨pl', hpl', rfl⟩
        · simp

/-- C1 witness: the reconciler contract instantiated on a desired-up
interface with one peer to add (P1), one to remove (P2) and one orphan
(P3). -/
theorem C1_reconciler_actions_witness :
    actsC1.count (Act.peerAdd "wg0" "P1" "10.0.0.2/32") = 1
    ∧ followedBy (Act.peerAdd "wg0" "P1" "10.0.0.2/32")
        (Act.routeAdd "10.0.0.2/32" "wg0") actsC1
    ∧ actsC1.count (Act.peerRemove "wg0" "P2") = 1
    ∧ followedBy (Act.peerRemove "wg0" "P2")
        (Act.routeDel "10.0.0.3/32" "wg0") actsC1
    ∧ actsC1.count (Act.peerRemove "wg0" "P3") = 1
    ∧ followedBy (Act.peerRemove "wg0" "P3")
        (Act.routeDel "10.0.0.4/32" "wg0") actsC1 := by
  have h := C1_reconciler_actions "/etc/wgconsole/conf.d" wC1 rowC1 rowsC1
    obsC1 actsC1 (by decide) (by decide) (by decide) (by decide) (by decide)
  have h4 := h.2.2.2.1 prC1a (by decide) (by decide) (by decide) (by decide)
  have h5 := h.2.2.2.2.1 prC1b (by decide) (by decide) (by decide) (by decide)
  have h6 := h.2.2.2.2.2 plC1P3 (by decide) (by decide) (by decide)
  exact ⟨h4.1, h4.2, h5.1, h5.2, h6.1, h6.2⟩

/-- Folding Python dict insertion over fresh, duplicate-free keys is
plain concatenation. -/
theorem foldl_pyInsert_append {α β : Type} [DecidableEq α] (l : List (α × β)) :
    ∀ d : List (α × β), (l.map Prod.fst).Nodup →
    (∀ p ∈ l, ¬ (d.any (fun q => q.1 = p.1) = true)) →
    l.foldl (fun d p => pyInsert d p.1 p.2) d = d ++ l := by
  induction l with
  | nil => intro d _ _; simp
  | cons p rest ih =>
    intro d hnd hdisj
    rw [List.foldl_cons]
    have hnd' : (p.1 :: rest.map Prod.fst).Nodup := by simpa using hnd
    have hins : pyInsert d p.1 p.2 = d ++ [p] := by
      unfold pyInsert
      rw [if_neg (hdisj p (List.mem_cons_self p rest))]
    rw [hins, ih (d ++ [p]) (List.nodup_cons.1 hnd').2
      (fun q hq => by
        have h1 := hdisj q (List.mem_cons_of_mem p hq)
        have h2 : ¬(p.1 = q.1) := by
          intro he
          apply (List.nodup_cons.1 hnd').1
          rw [he]
          exact List.mem_map.2 ⟨q, hq, rfl⟩
        simp [List.any_append, List.any_cons, List.any_nil, h2]
        simpa using h1)]
    simp

/-- A pair list with duplicate-free keys is its own Python dict. -/
theorem pydict_eq_self {α β : Type} [DecidableEq α] {l : List (α × β)}
    (hnd : (l.map Prod.fst).Nodup) : pydict l = l := by
  unfold pydict
  rw [foldl_pyInsert_append l [] hnd (fun p _ => by simp)]
  simp

/-- Counting in a `filterMap` none of whose pieces yields the element. -/
theorem count_filterMap_zero {α β : Type} [DecidableEq β] {f : α → Option β}
    {l : List α} {b : β} (h : ∀ x ∈ l, f x ≠ some b) :
    (l.filterMap f).count b = 0 := by
  induction l with
  | nil => rfl
  | cons x xs ih =>
    rw [List.filterMap_cons]
    cases hf : f x with
    | none => exact ih (fun y hy => h y (List.mem_cons_of_mem x hy))
    | some c =>
      rw [List.count_cons, ih (fun y hy => h y (List.mem_cons_of_mem x hy))]
      have hbc : ¬(b = c) := fun he => h x (List.mem_cons_self x xs) (he ▸ hf)
      have hcb : ¬(c = b) := fun he => hbc he.symm
      simp [hbc, hcb]

/-- Counting in a `filterMap` with exactly one contributing piece. -/
theorem count_filterMap_one {α β : Type} [DecidableEq β] {f : α → Option β}
    {l : List α} {x : α} {b : β}
    (hnd : l.Nodup) (hmem : x ∈ l) (hx : f x = some b)
    (hother : ∀ y ∈ l, y ≠ x → f y ≠ some b) :
    (l.filterMap f).count b = 1 := by
  induction l with
  | nil => cases hmem
  | cons z zs ih =>
    rw [List.filterMap_cons]
    by_cases hzx : z = x
    · have hnotin : x ∉ zs := by
        rw [hzx] at hnd
        exact (List.nodup_cons.1 hnd).1
      rw [hzx, hx, List.count_cons,
        count_filterMap_zero (fun y hy =>
          hother y (List.mem_cons_of_mem z hy) (fun he => hnotin (he ▸ hy)))]
      simp
    · have hmem' : x ∈ zs := by
        rcases List.mem_cons.1 hmem with h | h
        · exact absurd h.symm hzx
        · exact h
      have hrest := ih (List.nodup_cons.1 hnd).2 hmem'
        (fun y hy hne => hother y (List.mem_cons_of_mem z hy) hne)
      cases hf : f z with
      | none => exact hrest
      | some c =>
        rw [List.count_cons, hrest]
        have hbc : ¬(b = c) := fun he =>
          hother z (List.mem_cons_self z zs) hzx (he ▸ hf)
        have hcb : ¬(c = b) := fun he => hbc he.symm
        simp [hbc, hcb]

/-- Membership in the accumulated active-peer union. -/
theorem mem_allActive {w : WgSnap} {db : List (String × String)} {k : String} :
    k ∈ allActive w db ↔
      ∃ ni ∈ w, k ∈ ni.2.peers.map (fun pl => pl.key)
        ∧ (dget db k).isSome = true := by
  unfold allActive
  rw [mem_concatMap]
  constructor
  · intro ⟨ni, hni, hmem⟩
    obtain ⟨hk, hp⟩ := List.mem_filter.1 hmem
    exact ⟨ni, hni, hk, hp⟩
  · intro ⟨ni, hni, hk, hp⟩
    exact ⟨ni, hni, List.mem_filter.2 ⟨hk, hp⟩⟩

/-- A dict lookup succeeds exactly for the stored keys. -/
theorem dget_isSome_iff {α β : Type} [DecidableEq α] {d : List (α × β)} {k : α} :
    (dget d k).isSome = true ↔ k ∈ d.map Prod.fst := by
  unfold dget
  rw [Option.isSome_map']
  rw [List.find?_isSome]
  constructor
  · intro ⟨p, hp, hpk⟩
    exact List.mem_map.2 ⟨p, hp, (of_decide_eq_true hpk).symm ▸ rfl⟩
  · intro hk
    obtain ⟨p, hp, hpk⟩ := List.mem_map.1 hk
    exact ⟨p, hp, by simp [hpk]⟩

/-- C2 counterexample: a live, store-known peer whose parsed property
dict is empty gets the write `state = ''` — by the claim's definition a
clearing write — during the fingerprint phase, although it is live on an
interface this pass; the claim says a clearing write is never issued for
a live peer. -/
theorem C2_counterexample_live_peer_cleared :
    state_peer wC2 sC2 = [DbWrite.peerState "PK" ""]
    ∧ ∃ ni ∈ wC2, "PK" ∈ ni.2.peers.map (fun pl => pl.key) := by
  constructor
  · decide
  · decide

/-- C2 amended: the synchronizer's writes are the fingerprint phase
followed by the clearing phase, whose union of active peers (live keys
that are store keys) is accumulated over the whole snapshot before any
clearing write; each store peer outside the union with nonempty cached
state receives exactly one `state = ''` write; the clearing phase never
writes for a peer live on any interface; and a live peer receives a
`state = ''` write only as the fingerprint of an empty property dict. -/
theorem C2_state_peer_sync (w : WgSnap) (s : Store)
    (hnd : (s.peers.map (fun p => p.public_key)).Nodup) :
    state_peer w s = fpWrites w (dbOf s) ++ clearWrites w (dbOf s)
    ∧ (∀ k, k ∈ allActive w (dbOf s) ↔
        (∃ ni ∈ w, k ∈ ni.2.peers.map (fun pl => pl.key))
        ∧ k ∈ s.peers.map (fun p => p.public_key))
    ∧ (∀ p ∈ s.peers, p.public_key ∉ allActive w (dbOf s) → p.state ≠ "" →
        (state_peer w s).count (DbWrite.peerState p.public_key "") = 1)
    ∧ (∀ k, (∃ ni ∈ w, k ∈ ni.2.peers.map (fun pl => pl.key)) →
        DbWrite.peerState k "" ∉ clearWrites w (dbOf s))
    ∧ (∀ k, (∃ ni ∈ w, k ∈ ni.2.peers.map (fun pl => pl.key)) →
        DbWrite.peerState k "" ∈ state_peer w s →
        ∃ ni ∈ w, ∃ pl ∈ ni.2.peers, pl.key = k ∧ fingerprint pl.props = "") := by
  have hpairs : dbOf s = s.peers.map (fun p => (p.public_key, p.state)) := by
    unfold dbOf
    apply pydict_eq_self
    rw [List.map_map]
    exact hnd
  have hkeys : (dbOf s).map Prod.fst = s.peers.map (fun p => p.public_key) := by
    rw [hpairs, List.map_map]
    rfl
  have hnever : ∀ k, (∃ ni ∈ w, k ∈ ni.2.peers.map (fun pl => pl.key)) →
      DbWrite.peerState k "" ∉ clearWrites w (dbOf s) := by
    intro k hlive hmem
    obtain ⟨ni, hni, hk⟩ := hlive
    obtain ⟨kv, hkv, hsome⟩ := List.mem_filterMap.1 hmem
    split at hsome
    · rename_i hcond
      have hinj := Option.some.inj hsome
      injection hinj with h1 h2
      apply hcond.1
      apply mem_allActive.2
      refine ⟨ni, hni, ?_, ?_⟩
      · rw [h1]
        exact hk
      · apply dget_isSome_iff.2
        exact List.mem_map.2 ⟨kv, hkv, rfl⟩
    · cases hsome
  refine ⟨rfl, ?_, ?_, hnever, ?_⟩
  · intro k
    rw [mem_allActive]
    constructor
    · intro ⟨ni, hni, hk, hsome⟩
      refine ⟨⟨ni, hni, hk⟩, ?_⟩
      rw [← hkeys]
      exact dget_isSome_iff.1 hsome
    · intro ⟨⟨ni, hni, hk⟩, hdb⟩
      refine ⟨ni, hni, hk, dget_isSome_iff.2 ?_⟩
      rw [hkeys]
      exact hdb
  · intro p hp hnotact hne
    rw [show state_peer w s = fpWrites w (dbOf s) ++ clearWrites w (dbOf s)
      from rfl, List.count_append]
    have hfp0 : (fpWrites w (dbOf s)).count (DbWrite.peerState p.public_key "")
        = 0 := by
      apply count_concatMap_zero
      intro ni hni
      apply count_filterMap_zero
      intro pl hpl hsome
      split at hsome
      · have hinj := Option.some.inj hsome
        injection hinj with h1 h2
        apply hnotact
        apply mem_allActive.2
        refine ⟨ni, hni, ?_, ?_⟩
        · rw [← h1]
          exact List.mem_map.2 ⟨pl, List.mem_of_mem_filter hpl, rfl⟩
        · rw [← h1]
          exact (List.mem_filter.1 hpl).2
      · cases hsome
    have hcl1 : (clearWrites w (dbOf s)).count (DbWrite.peerState p.public_key "")
        = 1 := by
      have hdnd : (dbOf s).Nodup := by
        rw [hpairs]
        apply List.Nodup.of_map Prod.fst
        rw [List.map_map]
        exact hnd
      have hxmem : (p.public_key, p.state) ∈ dbOf s := by
        rw [hpairs]
        exact List.mem_map.2 ⟨p, hp, rfl⟩
      apply count_filterMap_one hdnd hxmem
      · rw [if_pos ⟨hnotact, hne⟩]
      · intro kv hkv hkne hsome
        split at hsome
        · have hinj := Option.some.inj hsome
          injection hinj with h1 h2
          rw [hpairs] at hkv
          obtain ⟨q, hq, hqe⟩ := List.mem_map.1 hkv
          have hqk : q.public_key = p.public_key := by
            rw [← h1, ← hqe]
          have := List.inj_on_of_nodup_map hnd hq hp hqk
          apply hkne
          rw [← hqe, this]
        · cases hsome
    rw [hfp0, hcl1]
  · intro k hlive hmem
    have hmem' : DbWrite.peerState k ""
        ∈ fpWrites w (dbOf s) ++ clearWrites w (dbOf s) := hmem
    rcases List.mem_append.1 hmem' with h | h
    · obtain ⟨ni, hni, hmemf⟩ := mem_concatMap.1 h
      obtain ⟨pl, hplf, hsome⟩ := List.mem_filterMap.1 hmemf
      split at hsome
      · have hinj := Option.some.inj hsome
        injection hinj with h1 h2
        exact ⟨ni, hni, pl, List.mem_of_mem_filter hplf, h1, h2⟩
      · cases hsome
    · exact absurd h (hnever k hlive)

/-- C2 witness: peer B (not live, cached state nonempty) gets exactly one
clearing write, while live peer A is in the union and never touched by
the clearing phase. -/
theorem C2_state_peer_sync_witness :
    (state_peer wW2 sW2).count (DbWrite.peerState "B" "") = 1
    ∧ DbWrite.peerState "A" "" ∉ clearWrites wW2 (dbOf sW2)
    ∧ "A" ∈ allActive wW2 (dbOf sW2) := by
  have h := C2_state_peer_sync wW2 sW2 (by decide)
  refine ⟨?_, ?_, ?_⟩
  · exact h.2.2.1 ⟨"B", "wg0", true, "10.0.0.3/32", "old"⟩ (by decide) (by decide)
      (by decide)
  · exact h.2.2.2.1 "A" (by decide)
  · exact (h.2.1 "A").2 ⟨by decide, by decide⟩

/-- C9 counterexample: in the block `aa: bb: cc` the greedy key capture
runs to the rightmost `': '`, so the property mapping binds the key
`aa: bb` to `cc`; the claim predicts the key `aa` (tokens up to the
first colon) bound to `bb: cc`, which is not what the parser produces. -/
theorem C9_counterexample_last_separator_wins :
    parseWgshow ("peer: PK\n  aa: bb: cc\n".data)
      = some [("PK".data, [("aa: bb".data, "cc".data)])]
    ∧ parseWgshow ("peer: PK\n  aa: bb: cc\n".data)
      ≠ some [("PK".data, [("aa".data, "bb: cc".data)])] := by
  constructor
  · decide
  · decide

/-- The line scanner splits one newline-terminated, newline-free line
off the front of the text. -/
theorem termLinesGo_append_line (l : List Char) :
    ∀ (acc rest : List Char), '\n' ∉ l →
    termLinesGo acc (l ++ '\n' :: rest) = (acc ++ l) :: termLinesGo [] rest := by
  induction l with
  | nil => intro acc rest _; simp [termLinesGo]
  | cons c l' ih =>
    intro acc rest hnl
    have hc : ¬(c = '\n') := fun he => hnl (he ▸ List.mem_cons_self c l')
    rw [List.cons_append]
    rw [show termLinesGo acc (c :: (l' ++ '\n' :: rest))
        = if c = '\n' then acc :: termLinesGo [] (l' ++ '\n' :: rest)
          else termLinesGo (acc ++ [c]) (l' ++ '\n' :: rest) from rfl,
      if_neg hc]
    rw [ih (acc ++ [c]) rest (fun hm => hnl (List.mem_cons_of_mem c hm))]
    simp

/-- The line scanner inverts `joinNl` on newline-free lines. -/
theorem termLines_joinNl {L : List (List Char)} (hall : ∀ l ∈ L, '\n' ∉ l) :
    termLines (joinNl L) = L := by
  induction L with
  | nil => rfl
  | cons l L' ih =>
    have hj : joinNl (l :: L') = l ++ '\n' :: joinNl L' := by
      unfold joinNl
      rw [concatMap]
      simp
    unfold termLines
    rw [hj, termLinesGo_append_line l [] (joinNl L')
      (hall l (List.mem_cons_self l L'))]
    simp only [List.nil_append]
    rw [show termLinesGo [] (joinNl L') = termLines (joinNl L') from rfl,
      ih (fun q hq => hall q (List.mem_cons_of_mem l hq))]

/-- With no capturable separator in the tail, the rightmost split of
`key ++ ': ' ++ value` is at that separator. -/
theorem splitAtLastKV_append (v : List Char) (hvno : splitAtLastKV v = none)
    (hv : v ≠ []) :
    ∀ k : List Char, splitAtLastKV (k ++ ':' :: ' ' :: v) = some (k, v) := by
  intro k
  induction k with
  | nil =>
    rw [List.nil_append]
    unfold splitAtLastKV
    rw [show splitAtLastKV (' ' :: v) = none from by
      unfold splitAtLastKV
      rw [hvno]
      simp]
    have hlen : 2 ≤ (' ' :: v).length := by
      cases v with
      | nil => exact absurd rfl hv
      | cons a u => simp [List.length_cons]
    simp [hlen, hv]
  | cons c k' ih =>
    rw [List.cons_append]
    unfold splitAtLastKV
    rw [ih]

/-- The property pattern on a well-formed line: key starting with a word
character, at least two characters, then `': '`, then a nonempty value
with no further capturable separator — captured verbatim. -/
theorem kvOfLine_eq {k v : List Char} {c : Char}
    (hhead : k.head? = some c) (hw : wordChar c = true)
    (hklen : 2 ≤ k.length) (hv : v ≠ []) (hvno : splitAtLastKV v = none) :
    kvOfLine (k ++ ':' :: ' ' :: v) = some (k, v) := by
  cases k with
  | nil => cases hhead
  | cons c0 k0 =>
    have hc0 : c0 = c := by
      simp only [List.head?_cons] at hhead
      exact Option.some.inj hhead
    unfold kvOfLine
    rw [List.cons_append, List.dropWhile_cons]
    rw [hc0, hw]
    simp only [Bool.not_true, Bool.false_eq_true, if_false]
    rw [← List.cons_append, splitAtLastKV_append v hvno hv (c :: k0)]
    simp [show 2 ≤ (c :: k0).length from by rw [← hc0]; exact hklen]
    intro he
    subst he
    simp at hklen

/-- C9 amended: within a peer block, a newline-terminated line of the
form `key: value` is captured into the block's property list verbatim
whenever the key starts at a word character and has at least two
characters and the value is nonempty, but the key runs to the rightmost
`': '` separator that leaves a nonempty value, not to the first colon;
the hypothesis `splitAtLastKV v = none` states that the value contains no
further capturable separator, so the stated split is that rightmost one.
This holds for every such line of the block, including its final line. -/
theorem C9_property_capture (L : List (List Char)) (k v : List Char) (c : Char)
    (hall : ∀ l ∈ L, '\n' ∉ l)
    (hline : (k ++ ':' :: ' ' :: v) ∈ L)
    (hhead : k.head? = some c) (hw : wordChar c = true)
    (hklen : 2 ≤ k.length)
    (hv : v ≠ []) (hvno : splitAtLastKV v = none) :
    (k, v) ∈ propsKV (joinNl L) := by
  unfold propsKV
  rw [termLines_joinNl hall]
  exact List.mem_filterMap.2
    ⟨k ++ ':' :: ' ' :: v, hline, kvOfLine_eq hhead hw hklen hv hvno⟩

/-- C9 witness: the amended capture rule on the concrete line
`aa: bb: cc`, whose captured key is `aa: bb`. -/
theorem C9_property_capture_witness :
    ("aa: bb".data, "cc".data) ∈ propsKV (joinNl ["aa: bb: cc".data]) := by
  have h := C9_property_capture ["aa: bb: cc".data] ("aa: bb".data) ("cc".data)
    'a' (by decide) (by decide) (by decide) (by decide) (by decide) (by decide)
    (by decide)
  exact h

/-- C3 counterexample: with no external change whatsoever, the second of
two consecutive passes still issues a store write.  The first pass brings
the desired-down interface `wg0` down; only then does the drift detector
see it as down, so the second pass writes the Address correction that
the first pass skipped while `wg0` was up.  The claim promises zero
additional store writes on the second pass. -/
theorem C3_counterexample_second_pass_writes :
    secondPass "/etc/wgconsole/conf.d" envC3 storeC3
      = some ([DbWrite.ifaceAddress "wg0" "10.9.9.9/24"], [])
    ∧ ([DbWrite.ifaceAddress "wg0" "10.9.9.9/24"], ([] : List Act))
      ≠ (([] : List DbWrite), ([] : List Act)) := by
  constructor
  · decide
  · decide

/-- The observed up/down state is the `wg show` truthiness. -/
theorem observe_state (env : Env) (n : String) :
    (observe env n).state = (env.live n).isSome := by
  unfold observe
  cases env.live n <;> rfl

/-- The observed peer list is the live peer list (empty when down). -/
theorem observe_peers (env : Env) (n : String) :
    (observe env n).peers = (env.live n).getD [] := by
  unfold observe
  cases env.live n <;> rfl

/-- A `concatMap` of empty pieces is empty. -/
theorem concatMap_eq_nil_of {α β : Type} {f : α → List β} {l : List α}
    (h : ∀ x ∈ l, f x = []) : concatMap f l = [] := by
  induction l with
  | nil => rfl
  | cons x xs ih =>
    rw [concatMap, h x (List.mem_cons_self x xs),
      ih (fun y hy => h y (List.mem_cons_of_mem x hy))]
    rfl

/-- An `optConcatMap` all of whose pieces succeed with nothing. -/
theorem optConcatMap_all_nil {α β : Type} {f : α → Option (List β)} {l : List α}
    (h : ∀ x ∈ l, f x = some []) : optConcatMap f l = some [] := by
  induction l with
  | nil => rfl
  | cons x xs ih =>
    rw [optConcatMap, h x (List.mem_cons_self x xs),
      ih (fun y hy => h y (List.mem_cons_of_mem x hy))]
    rfl

/-- Looking up a row's key in the key-to-state projection of a
duplicate-free peer table yields that row's state. -/
theorem dget_pairs_eq {l : List PeerRow}
    (hnd : (l.map (fun p => p.public_key)).Nodup) {p : PeerRow} (hp : p ∈ l) :
    dget (l.map (fun q => (q.public_key, q.state))) p.public_key
      = some p.state := by
  induction l with
  | nil => cases hp
  | cons q rest ih =>
    have hnd' : (q.public_key :: rest.map (fun p => p.public_key)).Nodup := by
      simpa using hnd
    by_cases hk : q.public_key = p.public_key
    · have hpq : p = q := by
        rcases List.mem_cons.1 hp with h | h
        · exact h
        · exact absurd (hk ▸ List.mem_map.2 ⟨p, h, rfl⟩)
            (List.nodup_cons.1 hnd').1
      unfold dget
      rw [List.map_cons, List.find?_cons_of_pos _ (by simp [hk])]
      rw [hpq]
      rfl
    · have hp' : p ∈ rest := by
        rcases List.mem_cons.1 hp with h | h
        · exact absurd (show q.public_key = p.public_key by rw [h]) hk
        · exact h
      unfold dget at ih ⊢
      rw [List.map_cons, List.find?_cons_of_neg _ (by simp [hk])]
      exact ih (List.nodup_cons.1 hnd').2 hp'

/-- A name present in the rows is found in the snapshot and maps to its
observation. -/
theorem wgLookup_found (env : Env) :
    ∀ rows : List InterfaceRow, ∀ r ∈ rows,
    wgLookup (rows.map (fun q => (q.name, observe env q.name))) r.name
      = some (observe env r.name) := by
  intro rows
  induction rows with
  | nil => intro r hr; cases hr
  | cons q rest ih =>
    intro r hr
    by_cases hqn : q.name = r.name
    · unfold wgLookup
      rw [List.map_cons, List.find?_cons_of_pos _ (by simp [hqn])]
      simp only [Option.map_some']
      rw [hqn]
    · rcases List.mem_cons.1 hr with h | h
      · exact absurd (show q.name = r.name by rw [h]) hqn
      · unfold wgLookup at ih ⊢
        rw [List.map_cons, List.find?_cons_of_neg _ (by simp [hqn])]
        exact ih r h

/-- A successful dict lookup returns a pair of the dict. -/
theorem dget_some_mem {α β : Type} [DecidableEq α] {d : List (α × β)} {k : α}
    {v : β} (h : dget d k = some v) : (k, v) ∈ d := by
  unfold dget at h
  cases hf : d.find? (fun p => p.1 = k) with
  | none => rw [hf] at h; cases h
  | some q =>
    rw [hf] at h
    have hm := List.mem_of_find?_eq_some hf
    have hk0 := List.find?_some hf
    have hk : q.1 = k := of_decide_eq_true hk0
    have hv : q.2 = v := Option.some.inj h
    have : (k, v) = q := by
      cases q
      cases hk
      cases hv
      rfl
    rw [this]
    exact hm

/-- In a converged state the interface phase issues no writes. -/
theorem conv_state_interface {env : Env} {s : Store} (hc : ConvergedHyp env s) :
    (state_interface env s).2 = [] := by
  have hform : (state_interface env s).2 = s.interfaces.filterMap (fun r =>
      if (observe env r.name).state ≠ r.state then
        some (DbWrite.ifaceState r.name (observe env r.name).state)
      else none) := rfl
  rw [hform]
  refine List.filterMap_eq_nil_iff.2 (fun r hr => ?_)
  have he : (observe env r.name).state = r.state := by
    rw [observe_state, hc.live_sync r hr, hc.state_sync r hr]
  rw [if_neg (not_ne_iff.2 he)]

/-- In a converged state the peer phase issues no writes. -/
theorem conv_state_peer {env : Env} {s : Store} (hc : ConvergedHyp env s) :
    state_peer (state_interface env s).1 s = [] := by
  have hnd : ((s.peers.map (fun p => (p.public_key, p.state))).map Prod.fst).Nodup := by
    rw [List.map_map]
    exact hc.peers_nd
  have hw : (state_interface env s).1
      = s.interfaces.map (fun r => (r.name, observe env r.name)) := rfl
  unfold state_peer
  dsimp only []
  rw [pydict_eq_self hnd, hw]
  have hfp : ∀ ni ∈ s.interfaces.map (fun r => (r.name, observe env r.name)),
      (ni.2.peers.filter (fun pl =>
          (dget (s.peers.map (fun p => (p.public_key, p.state))) pl.key).isSome)).filterMap
        (fun pl =>
          if some (fingerprint pl.props)
              ≠ dget (s.peers.map (fun p => (p.public_key, p.state))) pl.key then
            some (DbWrite.peerState pl.key (fingerprint pl.props))
          else none) = [] := by
    intro ni hni
    obtain ⟨r, hr, hrni⟩ := List.mem_map.1 hni
    refine List.filterMap_eq_nil_iff.2 (fun pl hpl => ?_)
    have hpl' := List.mem_filter.1 hpl
    have hplpeers : pl ∈ (observe env r.name).peers := by
      have : pl ∈ ni.2.peers := hpl'.1
      rw [← hrni] at this
      exact this
    have hplmem : pl ∈ (env.live r.name).getD [] := by
      rw [← observe_peers]
      exact hplpeers
    have hsome : (dget (s.peers.map (fun p => (p.public_key, p.state)))
        pl.key).isSome = true := hpl'.2
    obtain ⟨v, hv⟩ := Option.isSome_iff_exists.1 hsome
    obtain ⟨p, hp, hpe⟩ := List.mem_map.1 (dget_some_mem hv)
    have hpk : p.public_key = pl.key := congrArg Prod.fst hpe
    have hps : p.state = v := congrArg Prod.snd hpe
    have hfps : p.state = fingerprint pl.props :=
      hc.fp_sync p hp r hr pl hplmem hpk.symm
    rw [if_neg (not_ne_iff.2 (by rw [hv, ← hps, hfps]))]
  have hcl : ∀ kv ∈ s.peers.map (fun p => (p.public_key, p.state)),
      (if kv.1 ∉ allActive (s.interfaces.map (fun r => (r.name, observe env r.name)))
            (s.peers.map (fun p => (p.public_key, p.state)))
          ∧ kv.2 ≠ "" then
        some (DbWrite.peerState kv.1 "")
      else none) = none := by
    intro kv hkv
    obtain ⟨p, hp, hpe⟩ := List.mem_map.1 hkv
    subst hpe
    refine if_neg (fun hcond => ?_)
    refine hcond.2 (hc.cleared p hp (fun r hr hmem => ?_))
    refine hcond.1 (mem_allActive.2
      ⟨(r.name, observe env r.name), List.mem_map.2 ⟨r, hr, rfl⟩, ?_, ?_⟩)
    · show p.public_key ∈ (observe env r.name).peers.map (fun pl => pl.key)
      rw [observe_peers]
      exact hmem
    · show (dget (s.peers.map (fun p => (p.public_key, p.state)))
        p.public_key).isSome = true
      rw [dget_pairs_eq hc.peers_nd hp]
      rfl
  rw [concatMap_eq_nil_of hfp, List.filterMap_eq_nil_iff.2 hcl]
  rfl

/-- In a converged state the config-drift loop finishes cleanly with no
writes, over any selection of the store's interface rows. -/
theorem conv_confSetupGo {env : Env} {s : Store} (hc : ConvergedHyp env s) :
    ∀ rows : List InterfaceRow, (∀ r ∈ rows, r ∈ s.interfaces) →
    confSetupGo env (state_interface env s).1 rows = ([], false) := by
  intro rows
  induction rows with
  | nil => intro _; rfl
  | cons r rest ih =>
    intro hsub
    have hr : r ∈ s.interfaces := hsub r (List.mem_cons_self r rest)
    have hrest : ∀ q ∈ rest, q ∈ s.interfaces :=
      fun q hq => hsub q (List.mem_cons_of_mem r hq)
    have hlk : wgLookup (state_interface env s).1 r.name
        = some (observe env r.name) := wgLookup_found env s.interfaces r hr
    have hrec := ih hrest
    cases hst : r.status with
    | true =>
      have hup : (observe env r.name).state = true := by
        rw [observe_state, hc.live_sync r hr, hst]
      simp only [confSetupGo, hlk, hup, if_true]
      exact hrec
    | false =>
      have hdn : (observe env r.name).state = false := by
        rw [observe_state, hc.live_sync r hr, hst]
      cases hcf : env.conf r.name with
      | none =>
        simp only [confSetupGo, hlk, hdn, Bool.false_eq_true, if_false, hcf]
        exact hrec
      | some lines =>
        obtain ⟨conf, hparse, hA, hP, hK⟩ := hc.conf_sync r hr hst lines hcf
        have hbase : confFields r conf = [] := by
          unfold confFields
          have h1 : (match dget conf "Address" with
              | some a => if a ≠ r.address then [DbWrite.ifaceAddress r.name a] else []
              | none => []) = [] := by
            cases ha : dget conf "Address" with
            | none => rfl
            | some a =>
              show (if a ≠ r.address then [DbWrite.ifaceAddress r.name a] else []) = []
              rw [if_neg (not_ne_iff.2 (hA a ha))]
          have h2 : (match dget conf "ListenPort" with
              | some p =>
                match pyInt? p with
                | some v => if v ≠ r.port then [DbWrite.ifacePort r.name p] else []
                | none => []
              | none => []) = [] := by
            cases hp : dget conf "ListenPort" with
            | none => rfl
            | some ps =>
              show (match pyInt? ps with
                | some v => if v ≠ r.port then [DbWrite.ifacePort r.name ps] else []
                | none => []) = []
              cases hv : pyInt? ps with
              | none => rfl
              | some v =>
                show (if v ≠ r.port then [DbWrite.ifacePort r.name ps] else []) = []
                rw [if_neg (not_ne_iff.2 (hP ps v hp hv))]
          rw [h1, h2]
          rfl
        cases hpk : dget conf "PrivateKey" with
        | none =>
          simp only [confSetupGo, hlk, hdn, Bool.false_eq_true, if_false, hcf,
            hparse, hpk]
          rw [hbase, hrec]
          rfl
        | some priv =>
          obtain ⟨out, hout, hpkeq⟩ := hK priv hpk
          simp only [confSetupGo, hlk, hdn, Bool.false_eq_true, if_false, hcf,
            hparse, hpk, hout]
          rw [hbase, if_neg (not_ne_iff.2 hpkeq), hrec]
          rfl

/-- In a converged state `conf_setup` finishes cleanly with no writes. -/
theorem conv_conf_setup {env : Env} {s : Store} (hc : ConvergedHyp env s) :
    conf_setup env (state_interface env s).1 s = ([], false) := by
  unfold conf_setup
  exact conv_confSetupGo hc _ (fun r hr => (List.mem_filter.1 hr).1)

/-- In a converged state one interface of the reconciliation loop
produces no actions. -/
theorem conv_reconIface (confDir : String) {env : Env} {s : Store}
    (hc : ConvergedHyp env s) {r : InterfaceRow} (hr : r ∈ s.interfaces) :
    reconIface confDir (state_interface env s).1 r
      (s.peers.filter (fun p => p.interface_id = r.name)) = some [] := by
  have hstate : r.state = r.status := hc.state_sync r hr
  have hud1 : ¬(r.state = false ∧ r.status = true) := by
    intro h
    have h1 := h.1
    rw [hstate, h.2] at h1
    exact absurd h1 (by decide)
  have hud2 : ¬(r.state = true ∧ r.status = false) := by
    intro h
    have h1 := h.1
    rw [hstate, h.2] at h1
    exact absurd h1 (by decide)
  unfold reconIface
  dsimp only []
  rw [if_neg hud1, if_neg hud2]
  by_cases hsf : r.status = false
  · rw [if_pos hsf]
    rfl
  · rw [if_neg hsf]
    have hst : r.status = true := by
      revert hsf
      cases r.status <;> simp
    have hlk : wgLookup (state_interface env s).1 r.name
        = some (observe env r.name) := wgLookup_found env s.interfaces r hr
    split
    · rename_i heq
      rw [hlk] at heq
      cases heq
    · rename_i obs heq
      rw [hlk] at heq
      replace heq := Option.some.inj heq
      subst heq
      obtain ⟨l, hl⟩ : ∃ l, env.live r.name = some l := by
        have hsome := hc.live_sync r hr
        rw [hst] at hsome
        exact Option.isSome_iff_exists.1 hsome
      have hpeers : (observe env r.name).peers = l := by
        rw [observe_peers, hl]
        rfl
      have hksnd : (l.map (fun pl => pl.key)).Nodup := hc.live_nd r.name l hl
      have hprsnd : ((s.peers.filter (fun p => p.interface_id = r.name)).map
          (fun p => p.public_key)).Nodup :=
        ((List.filter_sublist s.peers).map (fun p => p.public_key)).nodup hc.peers_nd
      rw [hpeers, peerFold_eq r.name _ (l.map (fun pl => pl.key)) [] hprsnd hksnd]
      have hmat : ∀ p ∈ s.peers.filter (fun p => p.interface_id = r.name),
          matchActs r.name (l.map (fun pl => pl.key)) p = [] := by
        intro p hp
        have hp' := List.mem_filter.1 hp
        have hpmem : p ∈ s.peers := hp'.1
        have hpint : p.interface_id = r.name := of_decide_eq_true hp'.2
        have hiff := hc.peers_desired r hr hst p hpmem hpint
        rw [hl] at hiff
        rw [Option.getD_some] at hiff
        unfold matchActs
        cases hps : p.status with
        | true =>
          have hmem : p.public_key ∈ l.map (fun pl => pl.key) := hiff.1 hps
          rw [if_neg (fun h => h.1 hmem),
            if_neg (by intro h; exact absurd h.2 (by decide))]
          rfl
        | false =>
          have hnmem : p.public_key ∉ l.map (fun pl => pl.key) := by
            intro hm
            have := hiff.2 hm
            rw [hps] at this
            exact absurd this (by decide)
          rw [if_neg (by intro h; exact absurd h.2 (by decide)),
            if_neg (fun h => hnmem h.1)]
          rfl
      have hcov : (l.map (fun pl => pl.key)).filter
          (fun k => k ∉ (s.peers.filter (fun p => p.interface_id = r.name)).map
            (fun q => q.public_key)) = [] := by
        refine List.filter_eq_nil_iff.2 (fun k hk => ?_)
        intro hdec
        have hnot := of_decide_eq_true hdec
        obtain ⟨pl, hpl, hplk⟩ := List.mem_map.1 hk
        obtain ⟨p, hp, hpint, hppk⟩ := hc.live_rows r hr hst pl
          (by rw [hl, Option.getD_some]; exact hpl)
        refine hnot (List.mem_map.2 ⟨p, List.mem_filter.2 ⟨hp, decide_eq_true hpint⟩, ?_⟩)
        rw [hppk, hplk]
      rw [hcov, concatMap_eq_nil_of hmat]
      rfl

/-- In a converged state the reconciliation loop succeeds with no
actions. -/
theorem conv_reconcile (confDir : String) {env : Env} {s : Store}
    (hc : ConvergedHyp env s) :
    reconcile confDir (state_interface env s).1 s = some [] := by
  unfold reconcile
  exact optConcatMap_all_nil (fun r hr => conv_reconIface confDir hc hr)

/-- C3: amended idempotence.  The original claim — a second pass
immediately after a first one issues no writes and no actions — fails on
an up-to-down transition (the counterexample above: pass one brings the
interface down and defers the config-drift correction, which pass two
then writes).  The amended claim holds: starting from a CONVERGED state
(cached interface states and live up/down states equal the desired
status, each desired-up interface's live peer set is exactly its
desired-active rows, cached peer fingerprints and config-derived fields
are in sync, live key lists and the peer key column are duplicate-free),
a full pass issues no writes and no actions and leaves store and world
unchanged, and hence so does the pass after it. -/
theorem C3_second_pass_noop_of_converged (confDir : String) (env : Env)
    (s : Store) (hc : ConvergedHyp env s) :
    runPass confDir env s = some { store := s, env := env, writes := [], acts := [] }
    ∧ secondPass confDir env s = some ([], []) := by
  have h1 : (state_interface env s).2 = [] := conv_state_interface hc
  have h2 : state_peer (state_interface env s).1 s = [] := conv_state_peer hc
  have h3 : conf_setup env (state_interface env s).1 s = ([], false) :=
    conv_conf_setup hc
  have h4 : reconcile confDir (state_interface env s).1 s = some [] :=
    conv_reconcile confDir hc
  have e1 : applyWrites s [] = s := rfl
  have hrun : runPass confDir env s
      = some { store := s, env := env, writes := [], acts := [] } := by
    unfold runPass
    dsimp only []
    rw [h1, e1, h2, e1, h3]
    dsimp only []
    rw [e1, h4]
    dsimp only [List.foldl_nil]
    rw [h1, e1, h2, e1]
    rfl
  refine ⟨hrun, ?_⟩
  unfold secondPass
  rw [hrun]
  dsimp only []
  rw [hrun]

/-- Witness: a concrete converged configuration (one up interface with a
synced live peer, one down interface whose config matches the store) on
which the pass and the pass after it are no-ops. -/
theorem C3_second_pass_noop_of_converged_witness :
    runPass "/etc/wgconsole/conf.d" envW3 storeW3
      = some { store := storeW3, env := envW3, writes := [], acts := [] }
    ∧ secondPass "/etc/wgconsole/conf.d" envW3 storeW3 = some ([], []) :=
  C3_second_pass_noop_of_converged "/etc/wgconsole/conf.d" envW3 storeW3
    { state_sync := by decide
      live_sync := by decide
      peers_desired := by decide
      live_rows := by decide
      fp_sync := by decide
      cleared := by decide
      conf_sync := by
        intro r hr hst lines hl
        cases hr with
        | head => exact absurd hst (by decide)
        | tail _ htl =>
          cases htl with
          | head =>
            have hl' : some ["Address = 10.0.2.1/24\n", "ListenPort = 51821\n",
                "PrivateKey = SEC\n"] = some lines := hl
            cases Option.some.inj hl'
            refine ⟨[("Address", "10.0.2.1/24"), ("ListenPort", "51821"),
              ("PrivateKey", "SEC")], by decide, ?_, ?_, ?_⟩
            · intro a ha
              have ha' : some "10.0.2.1/24" = some a := ha
              exact (Option.some.inj ha').symm
            · intro ps v hps hv
              have hps' : some "51821" = some ps := hps
              cases Option.some.inj hps'
              have hv' : some (51821 : Int) = some v := hv
              exact (Option.some.inj hv').symm
            · intro priv hpriv
              have hpriv' : some "SEC" = some priv := hpriv
              cases Option.some.inj hpriv'
              exact ⟨"P1\n", rfl, by decide⟩
          | tail _ h2 => cases h2
      live_nd := by
        intro n l h
        by_cases hn : n = "wg0"
        · subst hn
          have h' :
              some [(⟨"A", [("allowed ips", "10.0.0.2/32")]⟩ : PeerLive)] = some l := h
          cases Option.some.inj h'
          decide
        · have h' : (none : Option (List PeerLive)) = some l := by
            have hdef : envW3.live n
                = (if n = "wg0" then
                    some [(⟨"A", [("allowed ips", "10.0.0.2/32")]⟩ : PeerLive)]
                  else none) := rfl
            rw [hdef, if_neg hn] at h
            exact h.symm.symm
          cases h'
      peers_nd := by decide }
